import Mathlib

/-!
# moznion/envs: `Unmarshal`

A shallow embedding of `mapper.go`.  `Unmarshal` walks the fields of the struct
behind the pointer it is given, reads the `envs` tag of each field, fetches
the environment variable it names and writes the converted value into the
field.

The Go standard library is not part of the repository.  What `Unmarshal`
uses of it is modelled as follows:

* `strings.Split`, `strings.TrimSpace`, `strings.EqualFold`, `os.Getenv` and
  `strconv.ParseInt` are written out (`Split`, `TrimSpace`, `EqualFold`,
  `Getenv`, `ParseInt`);
* `strconv.ParseFloat` and the type `float64` are parameters (`pf`, `F`):
  every theorem holds for whatever `ParseFloat` computes;
* `reflect` is modelled by the data it exposes: a field has a tag lookup
  result, a type with a `Kind`, an exported flag and a value.  Where reflect
  panics, the call of `Unmarshal` ends with that panic (`Status.panicked`):
  `NumField` on a Value that is no struct, a setter on a field that is not
  exported, `Set` with a pointer that is not assignable to the field;
* a result records, next to the way the call ended, the argument as it is
  afterwards and the names passed to `os.Getenv`, in order.
-/

namespace Envs

/-! ## Errors -/

/-- The error variables declared at the top of `mapper.go`. -/
inductive Sentinel where
  | ErrNonPointerVesselType
  | ErrNilVessel
  | ErrEnvironmentVariableNameIsEmpty
  | ErrEmptyEnvironmentVariable
  | ErrEnvironmentVariableParseInt64
  | ErrEnvironmentVariableParseFloat64
  | ErrUnsupportedFieldName
  deriving DecidableEq, Repr

/-- The message given to `errors.New` for each error variable. -/
def Sentinel.text : Sentinel → String
  | .ErrNonPointerVesselType => "non-pointer vessel type is not allowed"
  | .ErrNilVessel => "nil vessel is not allowed"
  | .ErrEnvironmentVariableNameIsEmpty =>
      "given tag value for environment variable's name is empty"
  | .ErrEmptyEnvironmentVariable =>
      "environment variable is empty; if it would like to allow the empty value, please consider using `allowempty` option"
  | .ErrEnvironmentVariableParseInt64 => "failed to parse an environment variable to int64"
  | .ErrEnvironmentVariableParseFloat64 => "failed to parse an environment variable to float64"
  | .ErrUnsupportedFieldName =>
      "unsupported field type; supported types are string, int64, float64, bool, and the pointer for them"

/-- An error value returned by `Unmarshal`: an error variable itself, or the
result of `fmt.Errorf("<context>: %w", ..., e)`, which wraps `e`; `context`
is the formatted text in front of `": %w"`. -/
inductive Error where
  | sentinel (e : Sentinel)
  | wrapped (context : String) (e : Sentinel)
  deriving DecidableEq, Repr

/-- The `errors.Is(err, target)` test for a target among the error variables. -/
def Error.Is : Error → Sentinel → Bool
  | .sentinel e, target => decide (e = target)
  | .wrapped _ e, target => decide (e = target)

/-- The `err.Error()` text. -/
def Error.message : Error → String
  | .sentinel e => e.text
  | .wrapped context e => context ++ ": " ++ e.text

/-- The panics of package `reflect` that `Unmarshal` can run into. -/
inductive Panic where
  -- NumField called on a Value whose Kind is not Struct (the zero Value
  -- behind a nil pointer included)
  | numFieldOfNonStruct
  -- SetString, SetInt, SetFloat, SetBool or Set called on a Value obtained
  -- through an unexported struct field
  | unexportedField
  -- Set called with a value whose type is not assignable to the field
  | notAssignable
  -- Type.Elem called on a type that has no element type
  | elemOfNonPointer
  deriving DecidableEq, Repr

/-- How a call of `Unmarshal` ends: it returns (`none` is the nil error) or
it panics. -/
inductive Status where
  | returned (err : Option Error)
  | panicked (p : Panic)
  deriving DecidableEq, Repr

/-- The call returned the nil error. -/
abbrev Status.ok : Status := .returned none

/-! ## Types, values and fields as `reflect` shows them -/

/-- The constants of `reflect.Kind`. -/
inductive Kind where
  | invalid | bool | int | int8 | int16 | int32 | int64
  | uint | uint8 | uint16 | uint32 | uint64 | uintptr
  | float32 | float64 | complex64 | complex128
  | array | chan | func | interface | map | ptr | slice | string | struct
  | unsafePointer
  deriving DecidableEq, Repr

/-- The text of `Kind.String()`, what `%s` prints for a Kind. -/
def Kind.text : Kind → String
  | .invalid => "invalid" | .bool => "bool" | .int => "int" | .int8 => "int8"
  | .int16 => "int16" | .int32 => "int32" | .int64 => "int64" | .uint => "uint"
  | .uint8 => "uint8" | .uint16 => "uint16" | .uint32 => "uint32" | .uint64 => "uint64"
  | .uintptr => "uintptr" | .float32 => "float32" | .float64 => "float64"
  | .complex64 => "complex64" | .complex128 => "complex128" | .array => "array"
  | .chan => "chan" | .func => "func" | .interface => "interface" | .map => "map"
  | .ptr => "ptr" | .slice => "slice" | .string => "string" | .struct => "struct"
  | .unsafePointer => "unsafe.Pointer"

/-- The declared type of a struct field.  `string`, `int64`, `float64` and
`bool` are the predeclared types, `ptr t` is `*t`, and `other name kind` is any
other type that is not a pointer type, with its name and its Kind: a struct
such as `time.Time`, a slice, `int`, but also a defined type over a scalar
such as `time.Duration`, whose Kind is `int64`. -/
inductive Typ where
  | string | int64 | float64 | bool
  | ptr (elem : Typ)
  | other (name : String) (kind : Kind)
  deriving DecidableEq, Repr

/-- The Kind of a type (`Type.Kind()`). -/
def Typ.Kind : Typ → Kind
  | .string => .string
  | .int64 => .int64
  | .float64 => .float64
  | .bool => .bool
  | .ptr _ => .ptr
  | .other _ k => k

/-- The element type of a pointer type (`Type.Elem()`), `none` where reflect
panics. -/
def Typ.Elem : Typ → Option Typ
  | .ptr t => some t
  | _ => none

/-- The four predeclared scalar types `Unmarshal` converts to. -/
def Typ.isScalar : Typ → Bool
  | .string | .int64 | .float64 | .bool => true
  | _ => false

/-- The value held by a field.  `F` is the type of `float64` values.  A
pointer is nil or points to a value; the address itself is not modelled.
`other` stands for a value of any other type. -/
inductive Val (F : Type) where
  | str (s : String)
  | int (n : Int)
  | float (x : F)
  | bool (b : Bool)
  | nilPtr
  | ptrTo (v : Val F)
  | other (repr : String)
  deriving DecidableEq, Repr

/-- One field of the struct: what `elem.Type().Field(i)` and `elem.Field(i)`
expose.  `tag` is the result of `typeField.Tag.Lookup(tagName)`, `none` when
the tag has no `envs` key. -/
structure Field (F : Type) where
  name : String
  exported : Bool
  tag : Option String
  typ : Typ
  val : Val F
  deriving DecidableEq, Repr

/-- A Go value as far as `Unmarshal` tells values apart: a struct with its
fields, or a value that is not a struct. -/
inductive Obj (F : Type) where
  | struct (fields : List (Field F))
  | nonStruct (repr : String)
  deriving DecidableEq, Repr

/-- The argument of `Unmarshal`, an `interface{}`: the nil interface, a
non-nil value whose Kind is not Ptr (with the name of its type, as
`reflect.TypeOf` prints it), or a pointer, which is nil (`none`) or points
to a value. -/
inductive Vessel (F : Type) where
  | nil
  | nonPointer (typeName : String) (o : Obj F)
  | pointer (target : Option (Obj F))
  deriving DecidableEq, Repr

/-! ## The standard library functions `Unmarshal` calls -/

/-- The `unicode.IsSpace` test: the code points with the White_Space property. -/
def isSpace (c : Char) : Bool :=
  let n := c.toNat
  (0x09 ≤ n && n ≤ 0x0d) || n == 0x20 || n == 0x85 || n == 0xa0 || n == 0x1680
    || (0x2000 ≤ n && n ≤ 0x200a) || n == 0x2028 || n == 0x2029 || n == 0x202f
    || n == 0x205f || n == 0x3000

/-- The `strings.TrimSpace` function. -/
def TrimSpace (s : String) : String :=
  String.mk (((s.toList.dropWhile isSpace).reverse.dropWhile isSpace).reverse)

/-- Splitting a list of characters at every occurrence of `sep`. -/
def splitChars (sep : Char) : List Char → List (List Char)
  | [] => [[]]
  | c :: cs =>
    if c = sep then [] :: splitChars sep cs
    else match splitChars sep cs with
      | [] => [[c]]
      | seg :: segs => (c :: seg) :: segs

/-- The `strings.Split(s, sep)` function for a separator of one character:
all the pieces between the separators, at least one. -/
def Split (s : String) (sep : Char) : List String :=
  (splitChars sep s.toList).map String.mk

/-- Lower case of an ASCII letter. -/
def foldAscii (c : Char) : Char :=
  if 'A'.toNat ≤ c.toNat ∧ c.toNat ≤ 'Z'.toNat then Char.ofNat (c.toNat + 32) else c

/-- The `strings.EqualFold(s, t)` test for an ASCII `t` none of whose letters
has a case variant outside ASCII (no `k`, no `s`), which is how `Unmarshal`
calls it: equality up to the case of ASCII letters. -/
def EqualFold (s t : String) : Bool :=
  s.toList.map foldAscii == t.toList.map foldAscii

/-- The process environment: the value of each variable that is set. -/
abbrev Env := String → Option String

/-- The `os.Getenv` function: the value of the variable, `""` when it is not
set; the empty name is never set. -/
def Getenv (env : Env) (key : String) : String :=
  if key = "" then "" else (env key).getD ""

/-- The value of a string of decimal digits, `none` when the string is empty
or holds another character. -/
def parseDigits (cs : List Char) : Option Nat :=
  if cs = [] then none
  else cs.foldl
    (fun acc c => match acc with
      | none => none
      | some n => if c.isDigit then some (n * 10 + (c.toNat - '0'.toNat)) else none)
    (some 0)

/-- The `strconv.ParseInt(s, 10, 64)` call: `none` when it returns an error
(syntax or range), the value otherwise.  An optional sign, then decimal
digits, the value within `[-2^63, 2^63 - 1]`. -/
def ParseInt (s : String) : Option Int :=
  let (neg, digits) : Bool × List Char :=
    match s.toList with
    | '+' :: cs => (false, cs)
    | '-' :: cs => (true, cs)
    | cs => (false, cs)
  match parseDigits digits with
  | none => none
  | some un =>
    if neg then (if un ≤ 2 ^ 63 then some (-(un : Int)) else none)
    else (if un < 2 ^ 63 then some (un : Int) else none)

/-! ## Unmarshal -/

section Mapper

variable {F : Type}

/-- The name of the struct tag key. -/
def tagName : String := "envs"

/-- The `envVarName` of a tag value: `strings.TrimSpace(splitTagValue[0])`. -/
def envVarName (tagValue : String) : String :=
  TrimSpace ((Split tagValue ',').headD "")

/-- The `allowEmpty` flag of a tag value:
`len(splitTagValue) >= 2 && strings.TrimSpace(splitTagValue[1]) == "allowempty"`. -/
def allowEmpty (tagValue : String) : Bool :=
  decide (2 ≤ (Split tagValue ',').length) &&
    TrimSpace ((Split tagValue ',').getD 1 "") == "allowempty"

/-- What processing one field leads to: the loop goes on to the next field
(with the field as it is now), or `Unmarshal` stops. -/
inductive Step (F : Type) where
  | next (f : Field F)
  | stop (s : Status)
  deriving DecidableEq, Repr

/-- The `field.SetString`, `SetInt`, `SetFloat` and `SetBool` calls: reflect
panics when the field is unexported, and writes the value otherwise. -/
def setField (f : Field F) (v : Val F) : Step F :=
  if f.exported then .next { f with val := v } else .stop (.panicked .unexportedField)

/-- The `field.Set(reflect.ValueOf(v))` call, `v` a pointer to a fresh
variable of the predeclared type `scalar` holding `x`: reflect panics when the
field is unexported or when `*scalar` is not assignable to the field's type
`*elem`, and writes the pointer otherwise. -/
def setPointer (f : Field F) (elem scalar : Typ) (x : Val F) : Step F :=
  if f.exported then
    (if elem = scalar then .next { f with val := .ptrTo x } else .stop (.panicked .notAssignable))
  else .stop (.panicked .unexportedField)

/-- The `fmt.Errorf` of a failed conversion. -/
def parseError (envVarName envVar : String) (e : Sentinel) : Status :=
  .returned (some (.wrapped ("environment variable `" ++ envVarName ++ "` => `" ++ envVar ++ "`") e))

/-- The `fmt.Errorf` of the two `default` branches. -/
def unsupportedError (fieldKind : Kind) : Status :=
  .returned (some (.wrapped ("field type is " ++ fieldKind.text) .ErrUnsupportedFieldName))

/-- The `switch fieldKind` statement: the conversion of the fetched value
`envVar` and the write into the field. -/
def convert (pf : String → Option F) (envVarName envVar : String) (f : Field F) : Step F :=
  match f.typ.Kind with
  | .string => setField f (.str envVar)
  | .int64 =>
    match ParseInt envVar with
    | none => .stop (parseError envVarName envVar .ErrEnvironmentVariableParseInt64)
    | some int64EnvVar => setField f (.int int64EnvVar)
  | .float64 =>
    match pf envVar with
    | none => .stop (parseError envVarName envVar .ErrEnvironmentVariableParseFloat64)
    | some float64Envvar => setField f (.float float64Envvar)
  | .bool => setField f (.bool (EqualFold envVar "true"))
  | .ptr =>
    match f.typ.Elem with
    | none => .stop (.panicked .elemOfNonPointer)
    | some elem =>
      match elem.Kind with
      | .string => setPointer f elem .string (.str envVar)
      | .int64 =>
        match ParseInt envVar with
        | none => .stop (parseError envVarName envVar .ErrEnvironmentVariableParseInt64)
        | some int64EnvVar => setPointer f elem .int64 (.int int64EnvVar)
      | .float64 =>
        match pf envVar with
        | none => .stop (parseError envVarName envVar .ErrEnvironmentVariableParseFloat64)
        | some float64Envvar => setPointer f elem .float64 (.float float64Envvar)
      | .bool => setPointer f elem .bool (.bool (EqualFold envVar "true"))
      | fieldKind => .stop (unsupportedError fieldKind)
  | fieldKind => .stop (unsupportedError fieldKind)

/-- The body of the `for` loop for one field: the step it leads to, and the
names it passed to `os.Getenv`. -/
def processField (pf : String → Option F) (env : Env) (f : Field F) : Step F × List String :=
  match f.tag with
  | none => (.next f, [])
  | some tagValue =>
    if envVarName tagValue = "" then
      (.stop (.returned (some (.sentinel .ErrEnvironmentVariableNameIsEmpty))), [])
    else if Getenv env (envVarName tagValue) = "" then
      (if allowEmpty tagValue then (.next f, [envVarName tagValue])
      else
        (.stop (.returned (some (.wrapped
          ("environment variable name is " ++ envVarName tagValue)
          .ErrEmptyEnvironmentVariable))), [envVarName tagValue]))
    else
      (convert pf (envVarName tagValue) (Getenv env (envVarName tagValue)) f,
        [envVarName tagValue])

/-- Where the `for` loop stands when it ends: how it ended, the fields as
they are then, and the names passed to `os.Getenv`, in order. -/
structure Scan (F : Type) where
  status : Status
  fields : List (Field F)
  lookups : List String
  deriving DecidableEq, Repr

/-- The `for` loop over the fields, in declaration order: it stops at the
first field whose processing stops, leaving that field and the ones after it
as they are. -/
def scan (pf : String → Option F) (env : Env) : List (Field F) → Scan F
  | [] => ⟨.ok, [], []⟩
  | f :: rest =>
    match processField pf env f with
    | (.next g, names) =>
      let r := scan pf env rest
      ⟨r.status, g :: r.fields, names ++ r.lookups⟩
    | (.stop s, names) => ⟨s, f :: rest, names⟩

/-- What a call of `Unmarshal` leaves behind: how it ended, the argument as
it is afterwards, and the names passed to `os.Getenv`, in order. -/
structure Result (F : Type) where
  status : Status
  vessel : Vessel F
  lookups : List String
  deriving DecidableEq, Repr

/-- The `Unmarshal` function. -/
def Unmarshal (pf : String → Option F) (env : Env) : Vessel F → Result F
  | .nil => ⟨.returned (some (.sentinel .ErrNilVessel)), .nil, []⟩
  | .nonPointer typeName o =>
    ⟨.returned (some (.wrapped typeName .ErrNonPointerVesselType)), .nonPointer typeName o, []⟩
  | .pointer none => ⟨.panicked .numFieldOfNonStruct, .pointer none, []⟩
  | .pointer (some (.nonStruct repr)) =>
    ⟨.panicked .numFieldOfNonStruct, .pointer (some (.nonStruct repr)), []⟩
  | .pointer (some (.struct fields)) =>
    let r := scan pf env fields
    ⟨r.status, .pointer (some (.struct r.fields)), r.lookups⟩

/-- The fields of the struct a vessel holds or points to (none for a vessel
without a struct). -/
def Vessel.fields : Vessel F → List (Field F)
  | .nonPointer _ (.struct fields) => fields
  | .pointer (some (.struct fields)) => fields
  | _ => []

/-- A pointer to a struct with the given fields, the argument `Unmarshal` is
meant for. -/
abbrev Vessel.ofFields (fields : List (Field F)) : Vessel F :=
  .pointer (some (.struct fields))

/-! ## What the specification says of conversions -/

/-- The value the specification gives a field of a scalar type for the
fetched string `raw`: the string verbatim, the base-10 parsed `int64`, the
parsed `float64`, or whether `raw` equals `true` ignoring case; `none` when
`raw` is no valid representation or the type is not one of the four. -/
def specValue (pf : String → Option F) : Typ → String → Option (Val F)
  | .string, raw => some (.str raw)
  | .int64, raw => (ParseInt raw).map .int
  | .float64, raw => (pf raw).map .float
  | .bool, raw => some (.bool (EqualFold raw "true"))
  | _, _ => none

/-- The field as the specification leaves it: a field without a tag as it
is, a tagged field holding the value converted from its variable. -/
def mapped (pf : String → Option F) (env : Env) (f : Field F) : Field F :=
  match f.tag with
  | none => f
  | some tagValue =>
    match specValue pf f.typ (Getenv env (envVarName tagValue)) with
    | some v => { f with val := v }
    | none => f

/-- The field `g` is the pointer variant of the field `f`: `f` has one of the
four scalar types `T` and `g` is the same field with the type `*T` (holding
whatever it holds), or `f` has another type and `g` is `f`. -/
def PtrVariant (f g : Field F) : Prop :=
  (f.typ.isScalar = true ∧ g.typ = .ptr f.typ ∧ g.name = f.name ∧
    g.exported = f.exported ∧ g.tag = f.tag) ∨
  (f.typ.isScalar = false ∧ g = f)

/-- The field `g` is the pointer variant of `f`, and when `f` has a scalar
type and a tag whose variable is not empty, `g` points to the value `f`
holds. -/
def PointsToScalar (env : Env) (f g : Field F) : Prop :=
  PtrVariant f g ∧
  (f.typ.isScalar = true → ∀ tagValue, f.tag = some tagValue →
    Getenv env (envVarName tagValue) ≠ "" → g.val = .ptrTo f.val)

end Mapper

/-! ## What the claims speak of -/

section Notions

variable {F : Type}

/-- The kinds the two `switch` statements convert to: those of `string`,
`int64`, `float64` and `bool`. -/
def Kind.supported : Kind → Bool
  | .string | .int64 | .float64 | .bool => true
  | _ => false

/-- The type is one of `string`, `int64`, `float64`, `bool` or a pointer to
one of those: the supported set as the error message of
`ErrUnsupportedFieldName` names it. -/
def Typ.supported : Typ → Bool
  | .ptr elem => elem.isScalar
  | typ => typ.isScalar

/-- The string is `true` up to the case of its four letters. -/
def equalsTrueIgnoringCase (s : String) : Bool :=
  match s.toList with
  | [a, b, c, d] =>
    (a == 't' || a == 'T') && (b == 'r' || b == 'R') && (c == 'u' || c == 'U') &&
      (d == 'e' || d == 'E')
  | _ => false

/-- The character of a decimal digit. -/
def digitChar (d : Nat) : Char := Char.ofNat ('0'.toNat + d)

/-- The decimal digits of `n` put in front of `acc`, most significant first;
`fuel` bounds the number of digits. -/
def formatNatAux : Nat → Nat → List Char → List Char
  | 0, _, acc => acc
  | fuel + 1, n, acc =>
    if n < 10 then digitChar n :: acc
    else formatNatAux fuel (n / 10) (digitChar (n % 10) :: acc)

/-- The base-10 rendering of a natural number, without leading zeros. -/
def formatNat (n : Nat) : List Char := formatNatAux (n + 1) n []

/-- The base-10 rendering of an integer, as `strconv.FormatInt(n, 10)` writes
it: a minus sign for a negative number, then the digits. -/
def FormatInt (n : Int) : String :=
  String.mk (if n < 0 then '-' :: formatNat n.natAbs else formatNat n.natAbs)

/-- The text of an annotation before its first comma. -/
def beforeFirstComma (tagValue : String) : String :=
  String.mk (tagValue.toList.takeWhile (fun c => c != ','))

/-- The text of an annotation after its first comma, `none` when it has no
comma. -/
def afterFirstComma (tagValue : String) : Option String :=
  match tagValue.toList.dropWhile (fun c => c != ',') with
  | [] => none
  | _ :: rest => some (String.mk rest)

/-- The value a conversion to the given Kind yields for the fetched string
`raw`, `none` when there is none. -/
def kindValue (pf : String → Option F) : Kind → String → Option (Val F)
  | .string, raw => some (.str raw)
  | .int64, raw => (ParseInt raw).map .int
  | .float64, raw => (pf raw).map .float
  | .bool, raw => some (.bool (EqualFold raw "true"))
  | _, _ => none

/-- The newly converted value of a field of the given type for the fetched
string `raw`: the value for the Kind of the type, behind a pointer for a
pointer type. -/
def convertedValue (pf : String → Option F) : Typ → String → Option (Val F)
  | .ptr elem, raw => (kindValue pf elem.Kind raw).map .ptrTo
  | typ, raw => kindValue pf typ.Kind raw

/-- The fields `f` and `g` are the same but for their tags. -/
def SameButTag (f g : Field F) : Prop :=
  g.name = f.name ∧ g.exported = f.exported ∧ g.typ = f.typ ∧ g.val = f.val

/-- The fields `f` and `g` are the same but for their tags, and their tags
are read alike: both are absent or equal, or they give the same name and the
same `allowEmpty` flag. -/
def ReadAlike (f g : Field F) : Prop :=
  SameButTag f g ∧
  (g.tag = f.tag ∨ ∃ t1 t2, f.tag = some t1 ∧ g.tag = some t2 ∧
    envVarName t1 = envVarName t2 ∧ allowEmpty t1 = allowEmpty t2)

/-- The fields `f` and `g` are the same but for their tags, and their tags
are both absent or equal, or have the same pieces once the pieces are
trimmed. -/
def TrimmedAlike (f g : Field F) : Prop :=
  SameButTag f g ∧
  (g.tag = f.tag ∨ ∃ t1 t2, f.tag = some t1 ∧ g.tag = some t2 ∧
    (Split t1 ',').map TrimSpace = (Split t2 ',').map TrimSpace)

end Notions

/-! ## Concrete inputs -/

/-- The type of `float64` values at concrete inputs: a decimal numeral, as
the pair of its digits and the number of digits after the point. -/
abbrev Decimal := Int × Nat

/-- A stand-in for `strconv.ParseFloat` at concrete inputs: a decimal
numeral `digits` or `digits.digits` with an optional sign, read exactly. -/
def decimalFloat (s : String) : Option Decimal :=
  match Split s '.' with
  | [a] => (ParseInt a).map (fun m => (m, 0))
  | [a, b] => if (parseDigits b.toList).isSome then (ParseInt (a ++ b)).map (fun m => (m, b.length)) else none
  | _ => none

/-- An environment with no variable set. -/
def emptyEnv : Env := fun _ => none

/-- The environment of the tests: `FOO`, `BAR`, `BUZ` and `QUX` are set. -/
def testEnv : Env := fun key =>
  if key = "FOO" then some "string-value"
  else if key = "BAR" then some "65535"
  else if key = "BUZ" then some "123.456"
  else if key = "QUX" then some "true"
  else none

/-- The struct of `TestUnmarshal`, all fields at their zero value. -/
def structuredEnv : List (Field Decimal) :=
  [ ⟨"Foo", true, some "FOO", .string, .str ""⟩,
    ⟨"Bar", true, some "BAR", .int64, .int 0⟩,
    ⟨"Buz", true, some "BUZ", .float64, .float (0, 0)⟩,
    ⟨"Qux", true, some "QUX", .bool, .bool false⟩,
    ⟨"FooBar", true, some "FOOBAR,allowempty", .string, .str ""⟩,
    ⟨"Nothing", true, none, .string, .str ""⟩ ]

/-- The struct of `TestUnmarshalWithPointerBasedStructure`, all fields nil. -/
def ptrBasedStructuredEnv : List (Field Decimal) :=
  [ ⟨"Foo", true, some "FOO", .ptr .string, .nilPtr⟩,
    ⟨"Bar", true, some "BAR", .ptr .int64, .nilPtr⟩,
    ⟨"Buz", true, some "BUZ", .ptr .float64, .nilPtr⟩,
    ⟨"Qux", true, some "QUX", .ptr .bool, .nilPtr⟩,
    ⟨"FooBar", true, some "FOOBAR,allowempty", .ptr .string, .nilPtr⟩,
    ⟨"Nothing", true, none, .ptr .string, .nilPtr⟩ ]

/-- The four tagged scalar fields of `TestUnmarshal` and its untagged field,
holding other values than their zero values. -/
def scalarFields : List (Field Decimal) :=
  [ ⟨"Foo", true, some "FOO", .string, .str "old"⟩,
    ⟨"Bar", true, some "BAR", .int64, .int 1⟩,
    ⟨"Buz", true, some "BUZ", .float64, .float (5, 1)⟩,
    ⟨"Qux", true, some "QUX", .bool, .bool false⟩,
    ⟨"Nothing", true, none, .string, .str "kept"⟩ ]

/-- A string field `Foo` with the given `envs` tag value, holding `"old"`. -/
def fooString (tagValue : String) : Field Decimal :=
  ⟨"Foo", true, some tagValue, .string, .str "old"⟩

/-- A field `Bar` of the given type tagged `envs:"BAR"`, holding `val`. -/
def barField (typ : Typ) (val : Val Decimal) : Field Decimal :=
  ⟨"Bar", true, some "BAR", typ, val⟩

/-- An environment in which only `BAR` is set, to `"string-value"`. -/
def barEnv : Env := fun key => if key = "BAR" then some "string-value" else none

/-- A field `Dur` of the defined type `time.Duration`, whose Kind is `int64`,
tagged `envs:"BAR"`, holding zero. -/
def durationField : Field Decimal :=
  ⟨"Dur", true, some "BAR", .other "time.Duration" .int64, .int 0⟩

/-- A field `At` of the given type tagged `envs:"FOO"`, holding `val`. -/
def atField (typ : Typ) (val : Val Decimal) : Field Decimal :=
  ⟨"At", true, some "FOO", typ, val⟩

/-- The struct type `time.Time`. -/
def timeTime : Typ := .other "time.Time" .struct

/-- An unexported field `qux` of the given type tagged `envs:"QUX"`. -/
def quxUnexported (typ : Typ) (val : Val Decimal) : Field Decimal :=
  ⟨"qux", false, some "QUX", typ, val⟩

/-- An environment in which only `FOO` is set, to the given value. -/
def fooEnv (value : String) : Env := fun key => if key = "FOO" then some value else none

/-- An exported field `Qux` of the given type tagged `envs:"QUX"`. -/
def quxField (typ : Typ) (val : Val Decimal) : Field Decimal :=
  ⟨"Qux", true, some "QUX", typ, val⟩

/-- An environment in which only `QUX` is set, to the given value. -/
def quxEnv (value : String) : Env := fun key => if key = "QUX" then some value else none

/-- An environment in which only `BAR` is set, to the given value. -/
def barSet (value : String) : Env := fun key => if key = "BAR" then some value else none

/-- The environment of the tests with one more variable set, `HOME`. -/
def testEnvWithHome : Env := fun key => if key = "HOME" then some "/root" else testEnv key

/-! # Theorems -/

section Proofs

variable {F : Type}

/-! ## The steps never stop with the nil error -/

theorem setField_ne_stop_ok (f : Field F) (v : Val F) : setField f v ≠ .stop .ok := by
  unfold setField
  split <;> simp

theorem setPointer_ne_stop_ok (f : Field F) (elem scalar : Typ) (x : Val F) :
    setPointer f elem scalar x ≠ .stop .ok := by
  unfold setPointer
  split
  · split <;> simp
  · simp

theorem convert_ne_stop_ok (pf : String → Option F) (n v : String) (f : Field F) :
    convert pf n v f ≠ .stop .ok := by
  unfold convert
  repeat' split
  all_goals first
    | exact setField_ne_stop_ok _ _
    | exact setPointer_ne_stop_ok _ _ _ _
    | simp [parseError, unsupportedError]

theorem processField_ne_stop_ok (pf : String → Option F) (env : Env) (f : Field F) :
    (processField pf env f).1 ≠ .stop .ok := by
  unfold processField
  repeat' split
  all_goals first
    | exact convert_ne_stop_ok _ _ _ _
    | simp

/-! ## The loop -/

/-- The loop over no field ends well. -/
theorem scan_nil (pf : String → Option F) (env : Env) : scan pf env [] = ⟨.ok, [], []⟩ := rfl

/-- A field whose processing goes on is followed by the scan of the rest. -/
theorem scan_cons_next (pf : String → Option F) (env : Env) (f g : Field F)
    (rest : List (Field F)) (names : List String)
    (h : processField pf env f = (.next g, names)) :
    scan pf env (f :: rest) =
      ⟨(scan pf env rest).status, g :: (scan pf env rest).fields,
        names ++ (scan pf env rest).lookups⟩ := by
  simp [scan, h]

/-- A field whose processing stops ends the scan, the record left as it is. -/
theorem scan_cons_stop (pf : String → Option F) (env : Env) (f : Field F)
    (rest : List (Field F)) (s : Status) (names : List String)
    (h : processField pf env f = (.stop s, names)) :
    scan pf env (f :: rest) = ⟨s, f :: rest, names⟩ := by
  simp [scan, h]

/-- The scan keeps the number of fields. -/
theorem scan_length (pf : String → Option F) (env : Env) (fs : List (Field F)) :
    (scan pf env fs).fields.length = fs.length := by
  induction fs with
  | nil => rfl
  | cons f rest ih =>
    rcases hp : processField pf env f with ⟨step, names⟩
    cases step with
    | next g => rw [scan_cons_next pf env f g rest names hp]; simp [ih]
    | stop s => rw [scan_cons_stop pf env f rest s names hp]

/-- A scan that ends well over a prefix goes on with the rest. -/
theorem scan_append_ok (pf : String → Option F) (env : Env) (pre rest : List (Field F))
    (h : (scan pf env pre).status = .ok) :
    scan pf env (pre ++ rest) =
      ⟨(scan pf env rest).status, (scan pf env pre).fields ++ (scan pf env rest).fields,
        (scan pf env pre).lookups ++ (scan pf env rest).lookups⟩ := by
  induction pre with
  | nil => simp [scan_nil]
  | cons f pre ih =>
    rcases hp : processField pf env f with ⟨step, names⟩
    cases step with
    | next g =>
      rw [scan_cons_next pf env f g pre names hp] at h ⊢
      rw [List.cons_append, scan_cons_next pf env f g (pre ++ rest) names hp, ih h]
      simp
    | stop s =>
      rw [scan_cons_stop pf env f pre s names hp] at h
      have hne := processField_ne_stop_ok pf env f
      rw [hp] at hne
      simp at h
      subst h
      exact absurd rfl hne

/-- A scan that stops within a prefix never looks at the rest. -/
theorem scan_append_stopped (pf : String → Option F) (env : Env) (pre rest : List (Field F))
    (h : (scan pf env pre).status ≠ .ok) :
    scan pf env (pre ++ rest) =
      ⟨(scan pf env pre).status, (scan pf env pre).fields ++ rest,
        (scan pf env pre).lookups⟩ := by
  induction pre with
  | nil => exact absurd rfl h
  | cons f pre ih =>
    rcases hp : processField pf env f with ⟨step, names⟩
    cases step with
    | next g =>
      rw [scan_cons_next pf env f g pre names hp] at h ⊢
      rw [List.cons_append, scan_cons_next pf env f g (pre ++ rest) names hp, ih h]
      simp
    | stop s =>
      rw [scan_cons_stop pf env f pre s names hp, List.cons_append,
        scan_cons_stop pf env f (pre ++ rest) s names hp]

/-- The scan at a field whose processing stops, the fields before it done. -/
theorem scan_stop_at (pf : String → Option F) (env : Env) (pre post : List (Field F))
    (f : Field F) (s : Status) (names : List String)
    (hpre : (scan pf env pre).status = .ok)
    (hf : processField pf env f = (.stop s, names)) :
    scan pf env (pre ++ f :: post) =
      ⟨s, (scan pf env pre).fields ++ f :: post, (scan pf env pre).lookups ++ names⟩ := by
  rw [scan_append_ok pf env pre (f :: post) hpre, scan_cons_stop pf env f post s names hf]

/-- The scan across a field whose processing leaves it alone has the status
of the scan without that field, and keeps the field in its place. -/
theorem scan_skip_at (pf : String → Option F) (env : Env) (pre post : List (Field F))
    (f : Field F) (names : List String)
    (hf : processField pf env f = (.next f, names)) :
    (scan pf env (pre ++ f :: post)).status = (scan pf env (pre ++ post)).status ∧
    (scan pf env (pre ++ f :: post)).fields[pre.length]? = some f := by
  by_cases hpre : (scan pf env pre).status = .ok
  · rw [scan_append_ok pf env pre (f :: post) hpre, scan_append_ok pf env pre post hpre,
      scan_cons_next pf env f f post names hf]
    refine ⟨rfl, ?_⟩
    simp only
    rw [← scan_length pf env pre, List.getElem?_append_right (le_refl _)]
    simp
  · rw [scan_append_stopped pf env pre (f :: post) hpre, scan_append_stopped pf env pre post hpre]
    refine ⟨rfl, ?_⟩
    simp only
    rw [← scan_length pf env pre, List.getElem?_append_right (le_refl _)]
    simp


/-! ## Untagged fields -/

/-- A field without an `envs` tag is passed over. -/
theorem processField_untagged (pf : String → Option F) (env : Env) (f : Field F)
    (h : f.tag = none) : processField pf env f = (.next f, []) := by
  simp [processField, h]

/-- The scan leaves a field without an `envs` tag as it is, however it ends. -/
theorem scan_untagged (pf : String → Option F) (env : Env) (fs : List (Field F)) :
    ∀ (i : Nat) (f : Field F), fs[i]? = some f → f.tag = none →
      (scan pf env fs).fields[i]? = some f := by
  induction fs with
  | nil => intro i f h; simp at h
  | cons g rest ih =>
    intro i f hget htag
    rcases hp : processField pf env g with ⟨step, names⟩
    cases step with
    | stop s => rw [scan_cons_stop pf env g rest s names hp]; exact hget
    | next g2 =>
      rw [scan_cons_next pf env g g2 rest names hp]
      cases i with
      | zero =>
        simp at hget
        subst hget
        rw [processField_untagged pf env g htag] at hp
        simp at hp
        simp [hp.1]
      | succ j =>
        simp at hget ⊢
        exact ih j f hget htag

/-! ## The claims -/

/-- C6: `Unmarshal(nil)` returns `ErrNilVessel` itself, whatever the
environment and the float parser are, and passes no name to `os.Getenv`. -/
theorem unmarshal_nil_vessel (pf : String → Option F) (env : Env) :
    Unmarshal pf env (.nil : Vessel F) =
      ⟨.returned (some (.sentinel .ErrNilVessel)), .nil, []⟩ ∧
    (Error.sentinel .ErrNilVessel).Is .ErrNilVessel = true :=
  ⟨rfl, rfl⟩

/-- C7: for a non-nil argument that is not a pointer, `Unmarshal` returns an
error that wraps `ErrNonPointerVesselType` and whose message starts with the
name of the argument's type; the argument is as it was, and no field is
processed: no name is passed to `os.Getenv`. -/
theorem unmarshal_non_pointer (pf : String → Option F) (env : Env) (typeName : String)
    (o : Obj F) :
    Unmarshal pf env (.nonPointer typeName o) =
      ⟨.returned (some (.wrapped typeName .ErrNonPointerVesselType)),
        .nonPointer typeName o, []⟩ ∧
    (Error.wrapped typeName .ErrNonPointerVesselType).Is .ErrNonPointerVesselType = true ∧
    (Error.wrapped typeName .ErrNonPointerVesselType).message =
      typeName ++ ": " ++ "non-pointer vessel type is not allowed" :=
  ⟨rfl, rfl, rfl⟩

/-- C8: a typed nil pointer and a pointer to a value that is not a struct
pass both guards of `Unmarshal`, and `elem.NumField()` panics: no error is
returned. -/
theorem unmarshal_pointer_without_struct_panics (pf : String → Option F) (env : Env)
    (repr : String) :
    (Unmarshal pf env (.pointer none : Vessel F)).status = .panicked .numFieldOfNonStruct ∧
    (Unmarshal pf env (.pointer (some (.nonStruct repr)) : Vessel F)).status =
      .panicked .numFieldOfNonStruct :=
  ⟨rfl, rfl⟩

/-- C9: when the scan reaches a field whose tag has a name segment that is
empty once trimmed, `Unmarshal` returns `ErrEnvironmentVariableNameIsEmpty`
itself, whatever the environment, the field's type and the rest of the tag
are; the fields from this one on are as they were, and the names passed to
`os.Getenv` are those of the fields before it.  The tags `""`, `"  "` and
`",allowempty"` have such a name segment. -/
theorem unmarshal_empty_name (pf : String → Option F) (env : Env)
    (pre post : List (Field F)) (f : Field F) (tagValue : String)
    (htag : f.tag = some tagValue) (hname : envVarName tagValue = "")
    (hpre : (scan pf env pre).status = .ok) :
    Unmarshal pf env (.ofFields (pre ++ f :: post)) =
      ⟨.returned (some (.sentinel .ErrEnvironmentVariableNameIsEmpty)),
        .ofFields ((scan pf env pre).fields ++ f :: post), (scan pf env pre).lookups⟩ ∧
    envVarName "" = "" ∧ envVarName "  " = "" ∧ envVarName ",allowempty" = "" := by
  have hf : processField pf env f =
      (.stop (.returned (some (.sentinel .ErrEnvironmentVariableNameIsEmpty))), []) := by
    simp [processField, htag, hname]
  refine ⟨?_, by decide, by decide, by decide⟩
  simp [Unmarshal, Vessel.ofFields, scan_stop_at pf env pre post f _ _ hpre hf]

/-- The test `TestUnmarshal_WithEmptyTagName`, by C9, with a variable set
and the `allowempty` option added. -/
theorem unmarshal_empty_name_witness :
    (Unmarshal decimalFloat testEnv (.ofFields [fooString " ,allowempty"])).status =
      .returned (some (.sentinel .ErrEnvironmentVariableNameIsEmpty)) ∧
    (Unmarshal decimalFloat testEnv (.ofFields [fooString " ,allowempty"])).lookups = [] :=
  have h := (unmarshal_empty_name decimalFloat testEnv [] [] (fooString " ,allowempty")
    " ,allowempty" rfl (by decide) rfl).1
  ⟨congrArg Result.status h, congrArg Result.lookups h⟩

/-- C4: when the scan reaches a field whose tag has a non-empty name, no
`allowempty` option, and a variable that is unset or set to the empty string,
`Unmarshal` returns an error that wraps `ErrEmptyEnvironmentVariable` and
whose message holds the name; that field and the fields after it are as they
were. -/
theorem unmarshal_empty_variable (pf : String → Option F) (env : Env)
    (pre post : List (Field F)) (f : Field F) (tagValue : String)
    (htag : f.tag = some tagValue) (hname : envVarName tagValue ≠ "")
    (hallow : allowEmpty tagValue = false)
    (henv : env (envVarName tagValue) = none ∨ env (envVarName tagValue) = some "")
    (hpre : (scan pf env pre).status = .ok) :
    Unmarshal pf env (.ofFields (pre ++ f :: post)) =
      ⟨.returned (some (.wrapped ("environment variable name is " ++ envVarName tagValue)
          .ErrEmptyEnvironmentVariable)),
        .ofFields ((scan pf env pre).fields ++ f :: post),
        (scan pf env pre).lookups ++ [envVarName tagValue]⟩ ∧
    (Error.wrapped ("environment variable name is " ++ envVarName tagValue)
      .ErrEmptyEnvironmentVariable).Is .ErrEmptyEnvironmentVariable = true := by
  have hget : Getenv env (envVarName tagValue) = "" := by
    rcases henv with h | h <;> simp [Getenv, h]
  have hf : processField pf env f =
      (.stop (.returned (some (.wrapped ("environment variable name is " ++ envVarName tagValue)
        .ErrEmptyEnvironmentVariable))), [envVarName tagValue]) := by
    simp [processField, htag, hname, hget, hallow]
  refine ⟨?_, rfl⟩
  simp [Unmarshal, Vessel.ofFields, scan_stop_at pf env pre post f _ _ hpre hf]

/-- The test `TestUnmarshal_WithEmptyEnvVar`, by C4, with a field before and
a field after the one whose variable is unset. -/
theorem unmarshal_empty_variable_witness :
    Unmarshal decimalFloat barEnv
        (.ofFields [barField .string (.str ""), fooString "FOO", barField .string (.str "")]) =
      ⟨.returned (some (.wrapped "environment variable name is FOO"
          .ErrEmptyEnvironmentVariable)),
        .ofFields [barField .string (.str "string-value"), fooString "FOO",
          barField .string (.str "")],
        ["BAR", "FOO"]⟩ :=
  (unmarshal_empty_variable decimalFloat barEnv [barField .string (.str "")]
    [barField .string (.str "")] (fooString "FOO") "FOO" rfl (by decide) (by decide)
    (Or.inl rfl) rfl).1

/-- C5: a field without an `envs` tag holds after `Unmarshal` what it held
before, whatever the argument, the environment, the field's type and the way
`Unmarshal` ends are. -/
theorem unmarshal_untagged_field (pf : String → Option F) (env : Env) (vessel : Vessel F)
    (i : Nat) (f : Field F) (hget : vessel.fields[i]? = some f) (htag : f.tag = none) :
    (Unmarshal pf env vessel).vessel.fields[i]? = some f := by
  match vessel, hget with
  | .nil, h => exact h
  | .nonPointer _ _, h => exact h
  | .pointer none, h => exact h
  | .pointer (some (.nonStruct _)), h => exact h
  | .pointer (some (.struct fields)), h => exact scan_untagged pf env fields i f h htag

/-- The field `Nothing` of `TestUnmarshal`, by C5. -/
theorem unmarshal_untagged_field_witness :
    (Unmarshal decimalFloat testEnv (.ofFields structuredEnv)).vessel.fields[5]? =
      some ⟨"Nothing", true, none, .string, .str ""⟩ :=
  unmarshal_untagged_field decimalFloat testEnv (.ofFields structuredEnv) 5
    ⟨"Nothing", true, none, .string, .str ""⟩ rfl rfl


/-- C3, as it is written, fails for the tag `",allowempty"`: the option is
there and the variable of the (empty) name is unset, yet the field makes
`Unmarshal` return `ErrEnvironmentVariableNameIsEmpty` though there is no
other field. -/
theorem unmarshal_allowempty_counterexample :
    allowEmpty ",allowempty" = true ∧
    Getenv emptyEnv (envVarName ",allowempty") = "" ∧
    Unmarshal decimalFloat emptyEnv (.ofFields [fooString ",allowempty"]) =
      ⟨.returned (some (.sentinel .ErrEnvironmentVariableNameIsEmpty)),
        .ofFields [fooString ",allowempty"], []⟩ := by
  decide

/-- C3, amended: a field whose tag has a non-empty name and the `allowempty`
option, and whose variable is unset or set to the empty string, is after
`Unmarshal` exactly as it was before, and it causes no error: `Unmarshal`
ends as it does on the record without that field, so it returns the nil error
whenever the other fields do not fail. -/
theorem unmarshal_allowempty_skips (pf : String → Option F) (env : Env)
    (pre post : List (Field F)) (f : Field F) (tagValue : String)
    (htag : f.tag = some tagValue) (hname : envVarName tagValue ≠ "")
    (hallow : allowEmpty tagValue = true)
    (henv : env (envVarName tagValue) = none ∨ env (envVarName tagValue) = some "") :
    (Unmarshal pf env (.ofFields (pre ++ f :: post))).vessel.fields[pre.length]? = some f ∧
    (Unmarshal pf env (.ofFields (pre ++ f :: post))).status =
      (Unmarshal pf env (.ofFields (pre ++ post))).status ∧
    ((scan pf env pre).status = .ok → (scan pf env post).status = .ok →
      (Unmarshal pf env (.ofFields (pre ++ f :: post))).status = .ok) := by
  have hget : Getenv env (envVarName tagValue) = "" := by
    rcases henv with h | h <;> simp [Getenv, h]
  have hf : processField pf env f = (.next f, [envVarName tagValue]) := by
    simp [processField, htag, hname, hget, hallow]
  have h := scan_skip_at pf env pre post f _ hf
  refine ⟨h.2, h.1, ?_⟩
  intro hpre hpost
  show (scan pf env (pre ++ f :: post)).status = .ok
  rw [h.1, scan_append_ok pf env pre post hpre]
  exact hpost

/-- The field `FooBar` of `TestUnmarshal`, by the amended C3, holding a value
before the call. -/
theorem unmarshal_allowempty_skips_witness :
    (Unmarshal decimalFloat testEnv
      (.ofFields [barField .int64 (.int 0), fooString "FOOBAR,allowempty",
        barField .int64 (.int 0)])).vessel.fields[1]? = some (fooString "FOOBAR,allowempty") ∧
    (Unmarshal decimalFloat testEnv
      (.ofFields [barField .int64 (.int 0), fooString "FOOBAR,allowempty",
        barField .int64 (.int 0)])).status = .ok :=
  have h := unmarshal_allowempty_skips decimalFloat testEnv [barField .int64 (.int 0)]
    [barField .int64 (.int 0)] (fooString "FOOBAR,allowempty") "FOOBAR,allowempty" rfl
    (by decide) (by decide) (Or.inl rfl)
  ⟨h.1, h.2.2 rfl rfl⟩

/-- C10, as it is written, fails when an earlier field stops the scan: the
`int64` field `Bar` has the variable `BAR=string-value`, which is no
integer, yet `Unmarshal` returns the error of the field `Foo` before it,
which does not wrap `ErrEnvironmentVariableParseInt64`. -/
theorem unmarshal_unparsable_counterexample :
    Getenv barEnv (envVarName "BAR") = "string-value" ∧
    ParseInt "string-value" = none ∧
    (Unmarshal decimalFloat barEnv (.ofFields [fooString "", barField .int64 (.int 7)])).status =
      .returned (some (.sentinel .ErrEnvironmentVariableNameIsEmpty)) ∧
    (Error.sentinel .ErrEnvironmentVariableNameIsEmpty).Is .ErrEnvironmentVariableParseInt64 =
      false := by
  decide

/-- C10, amended: when the scan reaches a field of type `int64` or `*int64`
whose variable holds a non-empty string that `strconv.ParseInt` rejects,
`Unmarshal` returns an error that wraps `ErrEnvironmentVariableParseInt64` and
whose message holds the name and the raw value; when it reaches a field of
type `float64` or `*float64` whose variable holds a non-empty string that
`strconv.ParseFloat` rejects, the error wraps
`ErrEnvironmentVariableParseFloat64` in the same way.  In both cases that
field and the fields after it are as they were.  `ParseInt` rejects a string
with other characters than digits, with blanks around the digits, and a
number outside `[-2^63, 2^63 - 1]`. -/
theorem unmarshal_unparsable (pf : String → Option F) (env : Env)
    (pre post : List (Field F)) (f : Field F) (tagValue : String)
    (htag : f.tag = some tagValue)
    (hraw : Getenv env (envVarName tagValue) ≠ "")
    (hpre : (scan pf env pre).status = .ok) :
    ((f.typ = .int64 ∨ f.typ = .ptr .int64) →
      ParseInt (Getenv env (envVarName tagValue)) = none →
      Unmarshal pf env (.ofFields (pre ++ f :: post)) =
        ⟨parseError (envVarName tagValue) (Getenv env (envVarName tagValue))
            .ErrEnvironmentVariableParseInt64,
          .ofFields ((scan pf env pre).fields ++ f :: post),
          (scan pf env pre).lookups ++ [envVarName tagValue]⟩) ∧
    ((f.typ = .float64 ∨ f.typ = .ptr .float64) →
      pf (Getenv env (envVarName tagValue)) = none →
      Unmarshal pf env (.ofFields (pre ++ f :: post)) =
        ⟨parseError (envVarName tagValue) (Getenv env (envVarName tagValue))
            .ErrEnvironmentVariableParseFloat64,
          .ofFields ((scan pf env pre).fields ++ f :: post),
          (scan pf env pre).lookups ++ [envVarName tagValue]⟩) ∧
    (∀ (name raw : String) (e : Sentinel),
      parseError name raw e =
        .returned (some (.wrapped ("environment variable `" ++ name ++ "` => `" ++ raw ++ "`") e)) ∧
      (Error.wrapped ("environment variable `" ++ name ++ "` => `" ++ raw ++ "`") e).Is e = true) ∧
    ParseInt "string-value" = none ∧ ParseInt " 65535 " = none ∧
    ParseInt "9223372036854775808" = none ∧ ParseInt "-9223372036854775809" = none := by
  have hname : envVarName tagValue ≠ "" := by
    intro h
    apply hraw
    simp [Getenv, h]
  refine ⟨?_, ?_, ?_, by decide, by decide, by decide, by decide⟩
  · intro htyp hparse
    have hf : processField pf env f =
        (.stop (parseError (envVarName tagValue) (Getenv env (envVarName tagValue))
          .ErrEnvironmentVariableParseInt64), [envVarName tagValue]) := by
      rcases htyp with h | h <;>
        simp [processField, htag, hname, hraw, convert, h, Typ.Kind, Typ.Elem, hparse]
    simp [Unmarshal, Vessel.ofFields, scan_stop_at pf env pre post f _ _ hpre hf]
  · intro htyp hparse
    have hf : processField pf env f =
        (.stop (parseError (envVarName tagValue) (Getenv env (envVarName tagValue))
          .ErrEnvironmentVariableParseFloat64), [envVarName tagValue]) := by
      rcases htyp with h | h <;>
        simp [processField, htag, hname, hraw, convert, h, Typ.Kind, Typ.Elem, hparse]
    simp [Unmarshal, Vessel.ofFields, scan_stop_at pf env pre post f _ _ hpre hf]
  · intro name raw e
    refine ⟨rfl, ?_⟩
    simp [Error.Is]

/-- The tests `TestUnmarshal_WithUnparsablePtrInt64` and
`TestUnmarshal_WithUnparsableFloat64`, by the amended C10. -/
theorem unmarshal_unparsable_witness :
    Unmarshal decimalFloat barEnv (.ofFields [barField (.ptr .int64) .nilPtr]) =
      ⟨.returned (some (.wrapped "environment variable `BAR` => `string-value`"
          .ErrEnvironmentVariableParseInt64)),
        .ofFields [barField (.ptr .int64) .nilPtr], ["BAR"]⟩ ∧
    Unmarshal decimalFloat barEnv (.ofFields [barField .float64 (.float (1, 0))]) =
      ⟨.returned (some (.wrapped "environment variable `BAR` => `string-value`"
          .ErrEnvironmentVariableParseFloat64)),
        .ofFields [barField .float64 (.float (1, 0))], ["BAR"]⟩ :=
  ⟨(unmarshal_unparsable decimalFloat barEnv [] [] (barField (.ptr .int64) .nilPtr) "BAR" rfl
      (by decide) rfl).1 (Or.inr rfl) (by decide),
    (unmarshal_unparsable decimalFloat barEnv [] [] (barField .float64 (.float (1, 0))) "BAR" rfl
      (by decide) rfl).2.1 (Or.inl rfl) (by decide)⟩


/-! ## Scalar fields with valid variables -/

/-- An exported field of a scalar type whose variable holds a valid
representation is written with the converted value. -/
theorem processField_scalar (pf : String → Option F) (env : Env) (f : Field F)
    (tagValue : String) (htag : f.tag = some tagValue) (hexp : f.exported = true)
    (hscalar : f.typ.isScalar = true)
    (hraw : Getenv env (envVarName tagValue) ≠ "")
    (hint : f.typ = .int64 → ParseInt (Getenv env (envVarName tagValue)) ≠ none)
    (hfloat : f.typ = .float64 → pf (Getenv env (envVarName tagValue)) ≠ none) :
    processField pf env f = (.next (mapped pf env f), [envVarName tagValue]) := by
  have hname : envVarName tagValue ≠ "" := by
    intro h
    apply hraw
    simp [Getenv, h]
  obtain ⟨name, exported, tag, typ, val⟩ := f
  simp only at htag hexp hscalar hint hfloat
  subst htag hexp
  cases typ with
  | string => simp [processField, hname, hraw, convert, Typ.Kind, setField, mapped, specValue]
  | int64 =>
    rcases hp : ParseInt (Getenv env (envVarName tagValue)) with _ | n
    · exact absurd hp (hint rfl)
    · simp [processField, hname, hraw, convert, Typ.Kind, setField, mapped, specValue, hp]
  | float64 =>
    rcases hp : pf (Getenv env (envVarName tagValue)) with _ | x
    · exact absurd hp (hfloat rfl)
    · simp [processField, hname, hraw, convert, Typ.Kind, setField, mapped, specValue, hp]
  | bool => simp [processField, hname, hraw, convert, Typ.Kind, setField, mapped, specValue]
  | ptr elem => simp [Typ.isScalar] at hscalar
  | other n k => simp [Typ.isScalar] at hscalar

/-- C1, as it is written, fails for an unexported field: the field `foo` has
the type `string`, its variable `FOO` is set to `string-value`, and
`field.SetString` panics: `Unmarshal` does not return. -/
theorem unmarshal_scalars_counterexample :
    Typ.string.isScalar = true ∧
    Getenv testEnv (envVarName "FOO") = "string-value" ∧
    Unmarshal decimalFloat testEnv (.ofFields [⟨"foo", false, some "FOO", .string, .str ""⟩]) =
      ⟨.panicked .unexportedField, .ofFields [⟨"foo", false, some "FOO", .string, .str ""⟩],
        ["FOO"]⟩ := by
  decide

/-- C1, amended: when every tagged field of the record is exported, has one
of the types `string`, `int64`, `float64` and `bool`, and has a variable set
to a non-empty string that is valid for the type, `Unmarshal` returns the nil
error, and afterwards every tagged field holds the value converted from its
variable (`specValue`), whatever it held before, and every other field is as
it was. -/
theorem unmarshal_scalars (pf : String → Option F) (env : Env) (fs : List (Field F))
    (h : ∀ f ∈ fs, ∀ tagValue, f.tag = some tagValue →
      f.exported = true ∧ f.typ.isScalar = true ∧
      Getenv env (envVarName tagValue) ≠ "" ∧
      (f.typ = .int64 → ParseInt (Getenv env (envVarName tagValue)) ≠ none) ∧
      (f.typ = .float64 → pf (Getenv env (envVarName tagValue)) ≠ none)) :
    (Unmarshal pf env (.ofFields fs)).status = .ok ∧
    (Unmarshal pf env (.ofFields fs)).vessel = .ofFields (fs.map (mapped pf env)) := by
  have key : (scan pf env fs).status = .ok ∧ (scan pf env fs).fields = fs.map (mapped pf env) := by
    induction fs with
    | nil => exact ⟨rfl, rfl⟩
    | cons f rest ih =>
      have ih2 := ih (fun g hg => h g (List.mem_cons_of_mem f hg))
      have hp : processField pf env f = (.next (mapped pf env f), (processField pf env f).2) := by
        cases ht : f.tag with
        | none => simp [processField, ht, mapped]
        | some tagValue =>
          obtain ⟨h1, h2, h3, h4, h5⟩ := h f (List.mem_cons_self f rest) tagValue ht
          rw [processField_scalar pf env f tagValue ht h1 h2 h3 h4 h5]
      rw [scan_cons_next pf env f _ rest _ hp]
      exact ⟨ih2.1, by simp [ih2.2]⟩
  exact ⟨key.1, by simp [Unmarshal, Vessel.ofFields, key.2]⟩

/-- The test `TestUnmarshal`, by the amended C1, the fields holding other
values before the call. -/
theorem unmarshal_scalars_witness :
    (Unmarshal decimalFloat testEnv (.ofFields scalarFields)).status = .ok ∧
    (Unmarshal decimalFloat testEnv (.ofFields scalarFields)).vessel =
      .ofFields
        [ ⟨"Foo", true, some "FOO", .string, .str "string-value"⟩,
          ⟨"Bar", true, some "BAR", .int64, .int 65535⟩,
          ⟨"Buz", true, some "BUZ", .float64, .float (123456, 3)⟩,
          ⟨"Qux", true, some "QUX", .bool, .bool true⟩,
          ⟨"Nothing", true, none, .string, .str "kept"⟩ ] :=
  unmarshal_scalars decimalFloat testEnv scalarFields (by
    intro f hf tagValue ht
    simp only [scalarFields, List.mem_cons, List.mem_singleton, List.not_mem_nil, or_false] at hf
    rcases hf with rfl | rfl | rfl | rfl | rfl <;> simp at ht <;> subst ht <;> decide)


/-! ## Pointer variants -/

/-- A step that goes on changes nothing of the field but its value. -/
theorem processField_next_frame (pf : String → Option F) (env : Env) (f g : Field F)
    (names : List String) (h : processField pf env f = (.next g, names)) :
    g = { f with val := g.val } := by
  have hs : ∀ v : Val F, setField f v = .next g → g = { f with val := g.val } := by
    intro v hv
    unfold setField at hv
    split at hv
    · simp at hv; subst hv; rfl
    · simp at hv
  have hp : ∀ (e t : Typ) (v : Val F), setPointer f e t v = .next g →
      g = { f with val := g.val } := by
    intro e t v hv
    unfold setPointer at hv
    split at hv
    · split at hv
      · simp at hv; subst hv; rfl
      · simp at hv
    · simp at hv
  unfold processField at h
  split at h
  · simp at h; rw [← h.1]
  · split at h
    · simp at h
    · split at h
      · split at h
        · simp at h; rw [← h.1]
        · simp at h
      · simp only [Prod.mk.injEq] at h
        have hc := h.1
        unfold convert at hc
        repeat' split at hc
        all_goals first
          | exact hs _ hc
          | exact hp _ _ _ hc
          | (simp [parseError, unsupportedError] at hc)

/-- The steps of a field and of its pointer variant: the same names are
looked up, and the two steps stop in the same way, or both go on, the new
fields are variants again, and the pointer points to the scalar's new value
when a non-empty variable was fetched. -/
theorem processField_ptrVariant (pf : String → Option F) (env : Env) (f g : Field F)
    (h : PtrVariant f g) :
    (processField pf env g).2 = (processField pf env f).2 ∧
    ((∃ s, (processField pf env f).1 = .stop s ∧ (processField pf env g).1 = .stop s) ∨
     (∃ f2 g2, (processField pf env f).1 = .next f2 ∧ (processField pf env g).1 = .next g2 ∧
        PtrVariant f2 g2 ∧
        (f2.typ.isScalar = true → ∀ t, f2.tag = some t →
          Getenv env (envVarName t) ≠ "" → g2.val = .ptrTo f2.val))) := by
  rcases h with ⟨hs, hty, hn, he, ht⟩ | ⟨hs, rfl⟩
  · obtain ⟨fname, fexp, ftag, ftyp, fval⟩ := f
    obtain ⟨gname, gexp, gtag, gtyp, gval⟩ := g
    simp only at hs hty hn he ht
    subst hty hn he ht
    cases gtag with
    | none =>
      simp only [processField]
      refine ⟨trivial, Or.inr ⟨_, _, rfl, rfl, Or.inl ⟨hs, rfl, rfl, rfl, rfl⟩, ?_⟩⟩
      intro _ t ht
      simp at ht
    | some tagValue =>
      by_cases hname : envVarName tagValue = ""
      · simp only [processField, hname, if_true]
        exact ⟨trivial, Or.inl ⟨_, rfl, rfl⟩⟩
      · by_cases hraw : Getenv env (envVarName tagValue) = ""
        · by_cases hallow : allowEmpty tagValue = true
          · simp only [processField, hname, hraw, hallow, if_true, if_false]
            refine ⟨trivial, Or.inr ⟨_, _, rfl, rfl, Or.inl ⟨hs, rfl, rfl, rfl, rfl⟩, ?_⟩⟩
            intro _ t ht hne
            simp at ht
            subst ht
            exact absurd hraw hne
          · have hallow2 : allowEmpty tagValue = false := by simpa using hallow
            simp only [processField, hname, hraw, hallow2, if_true, if_false, Bool.false_eq_true]
            first
              | exact ⟨rfl, Or.inl ⟨_, rfl, rfl⟩⟩
              | exact ⟨trivial, Or.inl ⟨_, rfl, rfl⟩⟩
        · refine ⟨by simp [processField, hname, hraw], ?_⟩
          simp only [processField, hname, hraw, if_false]
          rcases hpi : ParseInt (Getenv env (envVarName tagValue)) with _ | n <;>
            rcases hpx : pf (Getenv env (envVarName tagValue)) with _ | x <;>
            cases gexp <;> cases ftyp <;> simp [Typ.isScalar] at hs <;>
            simp [convert, Typ.Kind, Typ.Elem, setField, setPointer, PtrVariant, Typ.isScalar,
              hpi, hpx]
  · refine ⟨rfl, ?_⟩
    rcases hp : processField pf env g with ⟨step, names⟩
    cases step with
    | stop s => exact Or.inl ⟨s, rfl, rfl⟩
    | next f2 =>
      have hfr := processField_next_frame pf env g f2 names hp
      have hty : f2.typ = g.typ := by rw [hfr]
      refine Or.inr ⟨f2, f2, rfl, rfl, Or.inr ⟨?_, rfl⟩, ?_⟩
      · rw [hty]; exact hs
      · intro h2
        rw [hty, hs] at h2
        exact absurd h2 (by simp)

/-- The scans of a record and of its pointer variant. -/
theorem scan_ptrVariant (pf : String → Option F) (env : Env) (fs gs : List (Field F))
    (h : List.Forall₂ PtrVariant fs gs) :
    (scan pf env gs).status = (scan pf env fs).status ∧
    (scan pf env gs).lookups = (scan pf env fs).lookups ∧
    ((scan pf env fs).status = .ok →
      List.Forall₂ (PointsToScalar env) (scan pf env fs).fields (scan pf env gs).fields) := by
  induction h with
  | nil => exact ⟨rfl, rfl, fun _ => List.Forall₂.nil⟩
  | @cons f g fs gs hfg _ ih =>
    obtain ⟨hnames, hstep⟩ := processField_ptrVariant pf env f g hfg
    rcases hstep with ⟨s, hf, hg⟩ | ⟨f2, g2, hf, hg, hvar, hval⟩
    · have hf2 : processField pf env f = (.stop s, (processField pf env f).2) := by rw [← hf]
      have hg2 : processField pf env g = (.stop s, (processField pf env f).2) := by
        rw [← hg, ← hnames]
      rw [scan_cons_stop pf env f fs s _ hf2, scan_cons_stop pf env g gs s _ hg2]
      refine ⟨rfl, rfl, ?_⟩
      intro hok
      have hne := processField_ne_stop_ok pf env f
      rw [hf] at hne
      simp only at hok
      exact absurd (congrArg Step.stop hok) hne
    · have hf2 : processField pf env f = (.next f2, (processField pf env f).2) := by rw [← hf]
      have hg2 : processField pf env g = (.next g2, (processField pf env f).2) := by
        rw [← hg, ← hnames]
      rw [scan_cons_next pf env f f2 fs _ hf2, scan_cons_next pf env g g2 gs _ hg2]
      refine ⟨ih.1, by rw [ih.2.1], ?_⟩
      intro hok
      exact List.Forall₂.cons ⟨hvar, hval⟩ (ih.2.2 hok)

/-- C2, as it is written, fails when the conversion fails: the field `Bar`
of type `*float64` is the pointer variant of a `float64` field, its variable
`BAR=string-value` is not empty and is fetched, `Unmarshal` returns the
error of the conversion, and the field is left nil. -/
theorem unmarshal_pointer_variant_counterexample :
    PtrVariant (barField .float64 (.float (0, 0))) (barField (.ptr .float64) .nilPtr) ∧
    Getenv barEnv (envVarName "BAR") = "string-value" ∧
    Unmarshal decimalFloat barEnv (.ofFields [barField (.ptr .float64) .nilPtr]) =
      ⟨.returned (some (.wrapped "environment variable `BAR` => `string-value`"
          .ErrEnvironmentVariableParseFloat64)),
        .ofFields [barField (.ptr .float64) .nilPtr], ["BAR"]⟩ :=
  ⟨Or.inl ⟨rfl, rfl, rfl, rfl, rfl⟩, by decide, by decide⟩

/-- C2, amended: when a record is turned into its pointer variant (each
field of type `string`, `int64`, `float64` or `bool` becomes a field of the
pointer type with the same tag, the other fields stay), `Unmarshal` ends in
the same way on both, with the same nil error, the same error or the same
panic, after the same lookups; and when it returns the nil error, each
pointer field whose variable is not empty is not nil and points to the value
the scalar field holds. -/
theorem unmarshal_pointer_variant (pf : String → Option F) (env : Env)
    (fs gs : List (Field F)) (h : List.Forall₂ PtrVariant fs gs) :
    (Unmarshal pf env (.ofFields gs)).status = (Unmarshal pf env (.ofFields fs)).status ∧
    (Unmarshal pf env (.ofFields gs)).lookups = (Unmarshal pf env (.ofFields fs)).lookups ∧
    ((Unmarshal pf env (.ofFields fs)).status = .ok →
      List.Forall₂
        (fun f g => PtrVariant f g ∧
          (f.typ.isScalar = true → ∀ tagValue, f.tag = some tagValue →
            Getenv env (envVarName tagValue) ≠ "" → g.val = .ptrTo f.val ∧ g.val ≠ .nilPtr))
        (Unmarshal pf env (.ofFields fs)).vessel.fields
        (Unmarshal pf env (.ofFields gs)).vessel.fields) := by
  obtain ⟨h1, h2, h3⟩ := scan_ptrVariant pf env fs gs h
  refine ⟨h1, h2, ?_⟩
  intro hok
  refine List.Forall₂.imp ?_ (h3 hok)
  intro f g hfg
  refine ⟨hfg.1, ?_⟩
  intro hs t ht hne
  have hv := hfg.2 hs t ht hne
  exact ⟨hv, by rw [hv]; simp⟩

/-- The tests `TestUnmarshal` and `TestUnmarshalWithPointerBasedStructure`
side by side, by the amended C2. -/
theorem unmarshal_pointer_variant_witness :
    (Unmarshal decimalFloat testEnv (.ofFields ptrBasedStructuredEnv)).status =
      (Unmarshal decimalFloat testEnv (.ofFields structuredEnv)).status ∧
    (Unmarshal decimalFloat testEnv (.ofFields structuredEnv)).status = .ok ∧
    (Unmarshal decimalFloat testEnv (.ofFields ptrBasedStructuredEnv)).vessel =
      .ofFields
        [ ⟨"Foo", true, some "FOO", .ptr .string, .ptrTo (.str "string-value")⟩,
          ⟨"Bar", true, some "BAR", .ptr .int64, .ptrTo (.int 65535)⟩,
          ⟨"Buz", true, some "BUZ", .ptr .float64, .ptrTo (.float (123456, 3))⟩,
          ⟨"Qux", true, some "QUX", .ptr .bool, .ptrTo (.bool true)⟩,
          ⟨"FooBar", true, some "FOOBAR,allowempty", .ptr .string, .nilPtr⟩,
          ⟨"Nothing", true, none, .ptr .string, .nilPtr⟩ ] :=
  ⟨(unmarshal_pointer_variant decimalFloat testEnv structuredEnv ptrBasedStructuredEnv
      (.cons (Or.inl ⟨rfl, rfl, rfl, rfl, rfl⟩) (.cons (Or.inl ⟨rfl, rfl, rfl, rfl, rfl⟩)
        (.cons (Or.inl ⟨rfl, rfl, rfl, rfl, rfl⟩) (.cons (Or.inl ⟨rfl, rfl, rfl, rfl, rfl⟩)
          (.cons (Or.inl ⟨rfl, rfl, rfl, rfl, rfl⟩) (.cons (Or.inl ⟨rfl, rfl, rfl, rfl, rfl⟩)
            .nil))))))).1,
    by decide, by decide⟩

/-! ## More on the loop -/

/-- The scan at a field whose processing goes on, the fields before it done. -/
theorem scan_next_at (pf : String → Option F) (env : Env) (pre post : List (Field F))
    (f g : Field F) (names : List String)
    (hpre : (scan pf env pre).status = .ok)
    (hf : processField pf env f = (.next g, names)) :
    scan pf env (pre ++ f :: post) =
      ⟨(scan pf env post).status, (scan pf env pre).fields ++ g :: (scan pf env post).fields,
        (scan pf env pre).lookups ++ (names ++ (scan pf env post).lookups)⟩ := by
  rw [scan_append_ok pf env pre (f :: post) hpre, scan_cons_next pf env f g post names hf]

/-- The step of a tagged field whose variable is not empty is the conversion. -/
theorem processField_convert (pf : String → Option F) (env : Env) (f : Field F)
    (tagValue : String) (htag : f.tag = some tagValue)
    (hraw : Getenv env (envVarName tagValue) ≠ "") :
    processField pf env f =
      (convert pf (envVarName tagValue) (Getenv env (envVarName tagValue)) f,
        [envVarName tagValue]) := by
  have hname : envVarName tagValue ≠ "" := by
    intro h
    apply hraw
    simp [Getenv, h]
  simp [processField, htag, hname, hraw]

/-! ## Unsupported types -/

/-- C11, as it is written, fails in two ways.  The field `Dur` has the
declared type `time.Duration`, which is none of the supported types, and
the variable `BAR=65535`: its Kind is `int64`, so `Unmarshal` parses the
value, writes it and returns the nil error.  And the field `At` of type
`time.Time` with the variable `FOO=string-value` comes after a field that
stops the scan: `Unmarshal` returns the error of that field. -/
theorem unmarshal_unsupported_counterexample :
    (Typ.other "time.Duration" .int64).supported = false ∧
    Getenv testEnv (envVarName "BAR") = "65535" ∧
    Unmarshal decimalFloat testEnv (.ofFields [durationField]) =
      ⟨.ok, .ofFields [⟨"Dur", true, some "BAR", .other "time.Duration" .int64, .int 65535⟩],
        ["BAR"]⟩ ∧
    timeTime.supported = false ∧
    Getenv testEnv (envVarName "FOO") = "string-value" ∧
    (Unmarshal decimalFloat testEnv
      (.ofFields [fooString "", atField timeTime (.other "zero")])).status =
      .returned (some (.sentinel .ErrEnvironmentVariableNameIsEmpty)) := by
  decide

/-- C11, amended: when the scan reaches a tagged field whose variable is not
empty and whose type has a Kind that is none of `string`, `int64`, `float64`,
`bool` and `ptr`, or is a pointer type whose element type has a Kind that is
none of `string`, `int64`, `float64` and `bool`, `Unmarshal` returns an error
that wraps `ErrUnsupportedFieldName` and whose message holds the name of that
Kind; that field and the fields after it are as they were.  The types
`time.Time` and `*time.Time` are such types. -/
theorem unmarshal_unsupported (pf : String → Option F) (env : Env)
    (pre post : List (Field F)) (f : Field F) (tagValue : String)
    (htag : f.tag = some tagValue)
    (hraw : Getenv env (envVarName tagValue) ≠ "")
    (hpre : (scan pf env pre).status = .ok) :
    (f.typ.Kind ≠ .ptr → f.typ.Kind.supported = false →
      Unmarshal pf env (.ofFields (pre ++ f :: post)) =
        ⟨unsupportedError f.typ.Kind, .ofFields ((scan pf env pre).fields ++ f :: post),
          (scan pf env pre).lookups ++ [envVarName tagValue]⟩) ∧
    (∀ elem, f.typ = .ptr elem → elem.Kind.supported = false →
      Unmarshal pf env (.ofFields (pre ++ f :: post)) =
        ⟨unsupportedError elem.Kind, .ofFields ((scan pf env pre).fields ++ f :: post),
          (scan pf env pre).lookups ++ [envVarName tagValue]⟩) ∧
    (∀ k : Kind,
      unsupportedError k =
        .returned (some (.wrapped ("field type is " ++ k.text) .ErrUnsupportedFieldName)) ∧
      (Error.wrapped ("field type is " ++ k.text) .ErrUnsupportedFieldName).Is
        .ErrUnsupportedFieldName = true) ∧
    timeTime.Kind ≠ .ptr ∧ timeTime.Kind.supported = false := by
  refine ⟨?_, ?_, fun k => ⟨rfl, rfl⟩, by decide, by decide⟩
  · intro hptr hsupp
    have hf : processField pf env f =
        (.stop (unsupportedError f.typ.Kind), [envVarName tagValue]) := by
      rw [processField_convert pf env f tagValue htag hraw]
      unfold convert
      cases hk : f.typ.Kind <;> simp_all [Kind.supported]
    simp [Unmarshal, Vessel.ofFields, scan_stop_at pf env pre post f _ _ hpre hf]
  · intro elem hty hsupp
    have hf : processField pf env f =
        (.stop (unsupportedError elem.Kind), [envVarName tagValue]) := by
      rw [processField_convert pf env f tagValue htag hraw]
      have h1 : f.typ.Kind = .ptr := by rw [hty]; rfl
      have h2 : f.typ.Elem = some elem := by rw [hty]; rfl
      unfold convert
      simp only [h1, h2]
      cases hk : elem.Kind <;> simp_all [Kind.supported]
    simp [Unmarshal, Vessel.ofFields, scan_stop_at pf env pre post f _ _ hpre hf]

/-- The tests `TestUnmarshal_WithUnsupportedType` and
`TestUnmarshal_WithUnsupportedPtrType`, by the amended C11. -/
theorem unmarshal_unsupported_witness :
    Unmarshal decimalFloat testEnv (.ofFields [atField timeTime (.other "zero")]) =
      ⟨.returned (some (.wrapped "field type is struct" .ErrUnsupportedFieldName)),
        .ofFields [atField timeTime (.other "zero")], ["FOO"]⟩ ∧
    Unmarshal decimalFloat testEnv (.ofFields [atField (.ptr timeTime) .nilPtr]) =
      ⟨.returned (some (.wrapped "field type is struct" .ErrUnsupportedFieldName)),
        .ofFields [atField (.ptr timeTime) .nilPtr], ["FOO"]⟩ :=
  ⟨(unmarshal_unsupported decimalFloat testEnv [] [] (atField timeTime (.other "zero")) "FOO" rfl
      (by decide) rfl).1 (by decide) (by decide),
    (unmarshal_unsupported decimalFloat testEnv [] [] (atField (.ptr timeTime) .nilPtr) "FOO" rfl
      (by decide) rfl).2.1 timeTime rfl (by decide)⟩

/-! ## Booleans -/

/-- Folding a character gives one of the letters of `true` exactly for that
letter in either case. -/
theorem foldAscii_true_letters (a : Char) :
    (foldAscii a == 't') = (a == 't' || a == 'T') ∧
    (foldAscii a == 'r') = (a == 'r' || a == 'R') ∧
    (foldAscii a == 'u') = (a == 'u' || a == 'U') ∧
    (foldAscii a == 'e') = (a == 'e' || a == 'E') := by
  by_cases h : 'A'.toNat ≤ a.toNat ∧ a.toNat ≤ 'Z'.toNat
  · have ha : a = Char.ofNat a.toNat := (Char.ofNat_toNat a).symm
    obtain ⟨h1, h2⟩ := h
    generalize a.toNat = n at ha h1 h2
    subst ha
    have h3 : 65 ≤ n := h1
    have h4 : n ≤ 90 := h2
    interval_cases n <;> decide
  · have hf : foldAscii a = a := by unfold foldAscii; rw [if_neg h]
    have hT : ∀ c : Char, ('A'.toNat ≤ c.toNat ∧ c.toNat ≤ 'Z'.toNat) → (a == c) = false := by
      intro c hc
      cases hac : (a == c) with
      | false => rfl
      | true =>
        have : a = c := by simpa using hac
        subst this
        exact absurd hc h
    rw [hf, hT 'T' (by decide), hT 'R' (by decide), hT 'U' (by decide), hT 'E' (by decide)]
    simp

/-- The `strings.EqualFold(s, "true")` test holds exactly for the strings
that are `true` up to the case of the letters. -/
theorem EqualFold_true (s : String) : EqualFold s "true" = equalsTrueIgnoringCase s := by
  have ht : "true".toList.map foldAscii = ['t', 'r', 'u', 'e'] := by decide
  unfold EqualFold equalsTrueIgnoringCase
  rw [ht]
  rcases s.toList with _ | ⟨a, _ | ⟨b, _ | ⟨c, _ | ⟨d, _ | ⟨e, l⟩⟩⟩⟩⟩
  · rfl
  · simp
  · simp
  · simp
  · have ha := (foldAscii_true_letters a).1
    have hb := (foldAscii_true_letters b).2.1
    have hc := (foldAscii_true_letters c).2.2.1
    have hd := (foldAscii_true_letters d).2.2.2
    simp only [List.map]
    rw [← ha, ← hb, ← hc, ← hd]
    cases h1 : (foldAscii a == 't') <;> cases h2 : (foldAscii b == 'r') <;>
      cases h3 : (foldAscii c == 'u') <;> cases h4 : (foldAscii d == 'e') <;>
      simp_all
  · simp

/-- C12, as it is written, fails in two ways.  The unexported `bool` field
`qux` has the variable `QUX=true`, and `field.SetBool` panics: `Unmarshal`
fails on that field.  And the exported `bool` field `Qux`, holding `false`,
comes after a field that stops the scan: it still holds `false` afterwards
though `QUX=true`. -/
theorem unmarshal_bool_counterexample :
    Getenv testEnv (envVarName "QUX") = "true" ∧
    Unmarshal decimalFloat testEnv (.ofFields [quxUnexported .bool (.bool false)]) =
      ⟨.panicked .unexportedField, .ofFields [quxUnexported .bool (.bool false)], ["QUX"]⟩ ∧
    Unmarshal decimalFloat testEnv (.ofFields [fooString "", quxField .bool (.bool false)]) =
      ⟨.returned (some (.sentinel .ErrEnvironmentVariableNameIsEmpty)),
        .ofFields [fooString "", quxField .bool (.bool false)], []⟩ := by
  decide

/-- C12, amended: when the scan reaches an exported field of type `bool` or
`*bool` whose variable holds a non-empty string `s`, the field does not make
`Unmarshal` fail (the call ends as the scan of the fields after it ends), and
the field holds, resp. points to, `true` when `s` is `true` up to the case
of the letters, and `false` for every other `s`: so for `false`, `FALSE`, `1`,
`yes` and for `true` with a blank in front. -/
theorem unmarshal_bool (pf : String → Option F) (env : Env)
    (pre post : List (Field F)) (f : Field F) (tagValue : String)
    (htag : f.tag = some tagValue) (hexp : f.exported = true)
    (hraw : Getenv env (envVarName tagValue) ≠ "")
    (hpre : (scan pf env pre).status = .ok) :
    (f.typ = .bool →
      Unmarshal pf env (.ofFields (pre ++ f :: post)) =
        ⟨(scan pf env post).status,
          .ofFields ((scan pf env pre).fields ++
            { f with val := .bool (equalsTrueIgnoringCase (Getenv env (envVarName tagValue))) } ::
              (scan pf env post).fields),
          (scan pf env pre).lookups ++ ([envVarName tagValue] ++ (scan pf env post).lookups)⟩) ∧
    (f.typ = .ptr .bool →
      Unmarshal pf env (.ofFields (pre ++ f :: post)) =
        ⟨(scan pf env post).status,
          .ofFields ((scan pf env pre).fields ++
            { f with
              val := Val.ptrTo (.bool (equalsTrueIgnoringCase (Getenv env (envVarName tagValue)))) } ::
              (scan pf env post).fields),
          (scan pf env pre).lookups ++ ([envVarName tagValue] ++ (scan pf env post).lookups)⟩) ∧
    equalsTrueIgnoringCase "true" = true ∧ equalsTrueIgnoringCase "TRUE" = true ∧
    equalsTrueIgnoringCase "True" = true ∧ equalsTrueIgnoringCase "false" = false ∧
    equalsTrueIgnoringCase "FALSE" = false ∧ equalsTrueIgnoringCase "1" = false ∧
    equalsTrueIgnoringCase "yes" = false ∧ equalsTrueIgnoringCase " true" = false := by
  refine ⟨?_, ?_, by decide, by decide, by decide, by decide, by decide, by decide, by decide,
    by decide⟩
  · intro hty
    have hf : processField pf env f =
        (.next { f with
            val := Val.bool (equalsTrueIgnoringCase (Getenv env (envVarName tagValue))) },
          [envVarName tagValue]) := by
      rw [processField_convert pf env f tagValue htag hraw]
      simp [convert, hty, Typ.Kind, setField, hexp, EqualFold_true]
    simp [Unmarshal, Vessel.ofFields, scan_next_at pf env pre post f _ _ hpre hf]
  · intro hty
    have hf : processField pf env f =
        (.next { f with
            val := Val.ptrTo (.bool (equalsTrueIgnoringCase (Getenv env (envVarName tagValue)))) },
          [envVarName tagValue]) := by
      rw [processField_convert pf env f tagValue htag hraw]
      simp [convert, hty, Typ.Kind, Typ.Elem, setPointer, hexp, EqualFold_true]
    simp [Unmarshal, Vessel.ofFields, scan_next_at pf env pre post f _ _ hpre hf]

/-- A `bool` field with `QUX=TRUE` and a `*bool` field with `QUX=yes`, by the
amended C12. -/
theorem unmarshal_bool_witness :
    Unmarshal decimalFloat (quxEnv "TRUE") (.ofFields [quxField .bool (.bool false)]) =
      ⟨.ok, .ofFields [quxField .bool (.bool true)], ["QUX"]⟩ ∧
    Unmarshal decimalFloat (quxEnv "yes") (.ofFields [quxField (.ptr .bool) .nilPtr]) =
      ⟨.ok, .ofFields [quxField (.ptr .bool) (.ptrTo (.bool false))], ["QUX"]⟩ :=
  ⟨(unmarshal_bool decimalFloat (quxEnv "TRUE") [] [] (quxField .bool (.bool false)) "QUX" rfl rfl
      (by decide) rfl).1 rfl,
    (unmarshal_bool decimalFloat (quxEnv "yes") [] [] (quxField (.ptr .bool) .nilPtr) "QUX" rfl rfl
      (by decide) rfl).2.1 rfl⟩

/-! ## Integers -/

/-- The character of a digit is a digit with that value, and no sign. -/
theorem digitChar_spec (d : Nat) (h : d < 10) :
    (digitChar d).isDigit = true ∧ (digitChar d).toNat - '0'.toNat = d ∧
    digitChar d ≠ '+' ∧ digitChar d ≠ '-' := by
  interval_cases d <;> decide

/-- The rendering starts with a digit. -/
theorem formatNatAux_head (fuel : Nat) : ∀ (n : Nat) (acc : List Char), n < fuel →
    ∃ d rest, d < 10 ∧ formatNatAux fuel n acc = digitChar d :: rest := by
  induction fuel with
  | zero => intro n acc h; omega
  | succ fuel ih =>
    intro n acc h
    unfold formatNatAux
    by_cases hn : n < 10
    · exact ⟨n, acc, hn, by simp [hn]⟩
    · simp only [hn, if_false]
      exact ih (n / 10) _ (by omega)

/-- Reading the rendering of `n` digit by digit gives `n`. -/
theorem foldl_formatNatAux (fuel : Nat) : ∀ (n : Nat) (acc : List Char), n < fuel →
    (formatNatAux fuel n acc).foldl
      (fun acc c => match acc with
        | none => none
        | some n => if c.isDigit then some (n * 10 + (c.toNat - '0'.toNat)) else none)
      (some 0) =
    acc.foldl
      (fun acc c => match acc with
        | none => none
        | some n => if c.isDigit then some (n * 10 + (c.toNat - '0'.toNat)) else none)
      (some n) := by
  induction fuel with
  | zero => intro n acc h; omega
  | succ fuel ih =>
    intro n acc h
    unfold formatNatAux
    by_cases hn : n < 10
    · obtain ⟨h1, h2, _, _⟩ := digitChar_spec n hn
      simp only [hn, if_true, List.foldl_cons, h1, h2]
      simp
    · have hd : n % 10 < 10 := Nat.mod_lt n (by decide)
      obtain ⟨h1, h2, _, _⟩ := digitChar_spec (n % 10) hd
      simp only [hn, if_false]
      rw [ih (n / 10) _ (by omega)]
      simp only [List.foldl_cons, h1, h2, if_true]
      have : n / 10 * 10 + n % 10 = n := by omega
      rw [this]

/-- The digits of the rendering of `n` parse to `n`. -/
theorem parseDigits_formatNat (n : Nat) : parseDigits (formatNat n) = some n := by
  obtain ⟨d, rest, _, hrest⟩ := formatNatAux_head (n + 1) n [] (by omega)
  unfold parseDigits
  have hne : formatNat n ≠ [] := by
    unfold formatNat
    rw [hrest]
    simp
  rw [if_neg hne]
  unfold formatNat
  rw [foldl_formatNatAux (n + 1) n [] (by omega)]
  rfl

/-- The `strconv.ParseInt` call reads the base-10 rendering of every 64-bit
signed integer back. -/
theorem ParseInt_FormatInt (n : Int) (hlo : -2 ^ 63 ≤ n) (hhi : n ≤ 2 ^ 63 - 1) :
    ParseInt (FormatInt n) = some n := by
  by_cases hneg : n < 0
  · have hs : (FormatInt n).toList = '-' :: formatNat n.natAbs := by
      simp [FormatInt, hneg]
    unfold ParseInt
    rw [hs]
    simp only [parseDigits_formatNat]
    have hle : n.natAbs ≤ 2 ^ 63 := by omega
    simp only [hle, if_true]
    congr 1
    omega
  · obtain ⟨d, rest, hd, hrest⟩ := formatNatAux_head (n.natAbs + 1) n.natAbs [] (by omega)
    obtain ⟨_, _, hplus, hminus⟩ := digitChar_spec d hd
    have hs : (FormatInt n).toList = formatNat n.natAbs := by
      simp [FormatInt, hneg]
    have hp := parseDigits_formatNat n.natAbs
    unfold ParseInt
    rw [hs]
    unfold formatNat at hp ⊢
    rw [hrest] at hp ⊢
    have hm : (match digitChar d :: rest with
        | '+' :: cs => (false, cs)
        | '-' :: cs => (true, cs)
        | cs => (false, cs)) = (false, digitChar d :: rest) := by
      split
      · rename_i heq
        simp at heq
        exact absurd heq.1 hplus
      · rename_i heq
        simp at heq
        exact absurd heq.1 hminus
      · rfl
    rw [hm]
    simp only [hp]
    have hlt : n.natAbs < 2 ^ 63 := by omega
    have hnn : (n.natAbs : Int) = n := Int.natAbs_of_nonneg (by omega)
    simp [hnn]
    omega

/-- The rendering of an integer is not empty. -/
theorem FormatInt_ne_empty (n : Int) : FormatInt n ≠ "" := by
  obtain ⟨d, rest, _, hrest⟩ := formatNatAux_head (n.natAbs + 1) n.natAbs [] (by omega)
  intro h
  have h2 := congrArg String.toList h
  unfold FormatInt formatNat at h2
  rw [hrest] at h2
  split at h2 <;> simp at h2

/-- C13, as it is written, fails in two ways.  The unexported `int64` field
`bar` has the variable `BAR=65535`, the rendering of 65535, and
`field.SetInt` panics: `Unmarshal` does not succeed on that field.  And the
exported `int64` field `Bar`, holding 1, comes after a field that stops the
scan: it still holds 1 afterwards. -/
theorem unmarshal_int_round_trip_counterexample :
    Getenv testEnv (envVarName "BAR") = FormatInt 65535 ∧
    Unmarshal decimalFloat testEnv (.ofFields [⟨"bar", false, some "BAR", .int64, .int 0⟩]) =
      ⟨.panicked .unexportedField, .ofFields [⟨"bar", false, some "BAR", .int64, .int 0⟩],
        ["BAR"]⟩ ∧
    Unmarshal decimalFloat testEnv (.ofFields [fooString "", barField .int64 (.int 1)]) =
      ⟨.returned (some (.sentinel .ErrEnvironmentVariableNameIsEmpty)),
        .ofFields [fooString "", barField .int64 (.int 1)], []⟩ := by
  decide

/-- C13, amended: for every integer `n` in `[-2^63, 2^63 - 1]`, when the
scan reaches an exported field of type `int64` whose variable holds the
base-10 rendering of `n`, the field does not make `Unmarshal` fail (the call
ends as the scan of the fields after it ends) and it holds `n` afterwards.
The renderings of 0, `-2^63` and `2^63 - 1` are as expected. -/
theorem unmarshal_int_round_trip (pf : String → Option F) (env : Env)
    (pre post : List (Field F)) (f : Field F) (tagValue : String) (n : Int)
    (hlo : -2 ^ 63 ≤ n) (hhi : n ≤ 2 ^ 63 - 1)
    (htag : f.tag = some tagValue) (hexp : f.exported = true) (hty : f.typ = .int64)
    (hval : Getenv env (envVarName tagValue) = FormatInt n)
    (hpre : (scan pf env pre).status = .ok) :
    Unmarshal pf env (.ofFields (pre ++ f :: post)) =
      ⟨(scan pf env post).status,
        .ofFields ((scan pf env pre).fields ++ { f with val := Val.int n } ::
          (scan pf env post).fields),
        (scan pf env pre).lookups ++ ([envVarName tagValue] ++ (scan pf env post).lookups)⟩ ∧
    FormatInt 0 = "0" ∧ FormatInt (-2 ^ 63) = "-9223372036854775808" ∧
    FormatInt (2 ^ 63 - 1) = "9223372036854775807" := by
  refine ⟨?_, by decide, by decide, by decide⟩
  have hraw : Getenv env (envVarName tagValue) ≠ "" := by
    rw [hval]
    exact FormatInt_ne_empty n
  have hf : processField pf env f = (.next { f with val := Val.int n }, [envVarName tagValue]) := by
    rw [processField_convert pf env f tagValue htag hraw, hval]
    simp [convert, hty, Typ.Kind, ParseInt_FormatInt n hlo hhi, setField, hexp]
  simp [Unmarshal, Vessel.ofFields, scan_next_at pf env pre post f _ _ hpre hf]

/-- The smallest 64-bit integer, by the amended C13. -/
theorem unmarshal_int_round_trip_witness :
    Unmarshal decimalFloat (barSet "-9223372036854775808")
        (.ofFields [barField .int64 (.int 1)]) =
      ⟨.ok, .ofFields [barField .int64 (.int (-9223372036854775808))], ["BAR"]⟩ :=
  (unmarshal_int_round_trip decimalFloat (barSet "-9223372036854775808") [] []
    (barField .int64 (.int 1)) "BAR" (-9223372036854775808) (by decide) (by decide) rfl rfl rfl
    (by decide) rfl).1

/-! ## Annotations -/

/-- Splitting gives the text before the first separator, then the pieces of
the text after it. -/
theorem splitChars_eq (sep : Char) (l : List Char) :
    splitChars sep l =
      l.takeWhile (fun c => c != sep) ::
        (match l.dropWhile (fun c => c != sep) with
          | [] => []
          | _ :: rest => splitChars sep rest) := by
  induction l with
  | nil => rfl
  | cons c cs ih =>
    by_cases h : c = sep
    · subst h
      simp [splitChars]
    · have hne : (c != sep) = true := by simpa using h
      rw [splitChars, if_neg h, ih]
      simp [List.takeWhile, List.dropWhile, hne]

/-- The pieces of an annotation: the text before its first comma, then the
pieces of the text after that comma. -/
theorem Split_eq (tagValue : String) :
    Split tagValue ',' =
      beforeFirstComma tagValue ::
        (match afterFirstComma tagValue with
          | none => []
          | some rest => Split rest ',') := by
  unfold Split beforeFirstComma afterFirstComma
  rw [splitChars_eq]
  cases h : tagValue.toList.dropWhile (fun c => c != ',') with
  | nil => simp
  | cons c rest => simp

/-- C14, as it is written, fails for the annotation `FOO,allowempty,extra`:
the whole text after the first comma is `allowempty,extra`, which is not
`allowempty`, yet the `allowEmpty` flag is set, and with `FOO` unset
`Unmarshal` passes the field over and returns the nil error. -/
theorem annotation_split_counterexample :
    afterFirstComma "FOO,allowempty,extra" = some "allowempty,extra" ∧
    TrimSpace "allowempty,extra" ≠ "allowempty" ∧
    allowEmpty "FOO,allowempty,extra" = true ∧
    Getenv emptyEnv (envVarName "FOO,allowempty,extra") = "" ∧
    Unmarshal decimalFloat emptyEnv (.ofFields [fooString "FOO,allowempty,extra"]) =
      ⟨.ok, .ofFields [fooString "FOO,allowempty,extra"], ["FOO"]⟩ := by
  decide

/-- C14, amended: the annotation is split at every comma.  The name is the
trimmed text before the first comma, and `allowEmpty` is set exactly when
there is a first comma and the trimmed text between it and the next comma
(or the end) is `allowempty`.  So for `FOO,allowempty,extra` the flag is set,
and with `FOO` unset `Unmarshal` passes the field over and returns the nil
error. -/
theorem annotation_split (tagValue : String) :
    envVarName tagValue = TrimSpace (beforeFirstComma tagValue) ∧
    (allowEmpty tagValue = true ↔
      ∃ rest, afterFirstComma tagValue = some rest ∧
        TrimSpace (beforeFirstComma rest) = "allowempty") ∧
    allowEmpty "FOO,allowempty,extra" = true ∧
    Unmarshal decimalFloat emptyEnv (.ofFields [fooString "FOO,allowempty,extra"]) =
      ⟨.ok, .ofFields [fooString "FOO,allowempty,extra"], ["FOO"]⟩ := by
  refine ⟨?_, ?_, by decide, by decide⟩
  · unfold envVarName
    rw [Split_eq]
    rfl
  · unfold allowEmpty
    rw [Split_eq]
    cases h : afterFirstComma tagValue with
    | none => simp
    | some rest =>
      obtain ⟨tl, htl⟩ : ∃ tl, Split rest ',' = beforeFirstComma rest :: tl :=
        ⟨_, Split_eq rest⟩
      simp [htl]

/-! ## The step reads the exported flag, the tag and the type only -/

/-- A setter behaves alike on two fields that are both exported or both not. -/
theorem setField_congr (f g : Field F) (v : Val F) (he : g.exported = f.exported) :
    (∃ s, setField f v = .stop s ∧ setField g v = .stop s) ∨
    (∃ w, setField f v = .next { f with val := w } ∧ setField g v = .next { g with val := w }) := by
  unfold setField
  rw [he]
  cases f.exported
  · exact Or.inl ⟨_, rfl, rfl⟩
  · exact Or.inr ⟨v, rfl, rfl⟩

/-- The pointer setter behaves alike on two fields that are both exported or
both not. -/
theorem setPointer_congr (f g : Field F) (elem scalar : Typ) (x : Val F)
    (he : g.exported = f.exported) :
    (∃ s, setPointer f elem scalar x = .stop s ∧ setPointer g elem scalar x = .stop s) ∨
    (∃ w, setPointer f elem scalar x = .next { f with val := w } ∧
      setPointer g elem scalar x = .next { g with val := w }) := by
  unfold setPointer
  rw [he]
  cases f.exported
  · exact Or.inl ⟨_, rfl, rfl⟩
  · by_cases h : elem = scalar
    · simp only [h, if_true]
      exact Or.inr ⟨_, rfl, rfl⟩
    · simp only [h, if_false, if_true]
      exact Or.inl ⟨_, rfl, rfl⟩

/-- The conversion behaves alike on two fields of one type that are both
exported or both not: it stops in the same way, or writes the same value. -/
theorem convert_congr (pf : String → Option F) (n raw : String) (f g : Field F)
    (he : g.exported = f.exported) (ht : g.typ = f.typ) :
    (∃ s, convert pf n raw f = .stop s ∧ convert pf n raw g = .stop s) ∨
    (∃ w, convert pf n raw f = .next { f with val := w } ∧
      convert pf n raw g = .next { g with val := w }) := by
  have hk : g.typ.Kind = f.typ.Kind := by rw [ht]
  have hel : g.typ.Elem = f.typ.Elem := by rw [ht]
  unfold convert
  rw [hk, hel]
  repeat' split
  all_goals first
    | exact setField_congr f g _ he
    | exact setPointer_congr f g _ _ _ he
    | exact Or.inl ⟨_, rfl, rfl⟩

/-- Writing one value into two fields that are read alike leaves them read
alike. -/
theorem ReadAlike.write {f g : Field F} (h : ReadAlike f g) (w : Val F) :
    ReadAlike { f with val := w } { g with val := w } :=
  ⟨⟨h.1.1, h.1.2.1, h.1.2.2.1, rfl⟩, h.2⟩

/-- The steps of two fields that are read alike: the same names are looked
up, and the two steps stop in the same way, or both go on with fields that
are read alike. -/
theorem processField_readAlike (pf : String → Option F) (env : Env) (f g : Field F)
    (h : ReadAlike f g) :
    (processField pf env g).2 = (processField pf env f).2 ∧
    ((∃ s, (processField pf env f).1 = .stop s ∧ (processField pf env g).1 = .stop s) ∨
     (∃ f2 g2, (processField pf env f).1 = .next f2 ∧ (processField pf env g).1 = .next g2 ∧
        ReadAlike f2 g2)) := by
  have hcases : (f.tag = none ∧ g.tag = none) ∨
      ∃ t1 t2, f.tag = some t1 ∧ g.tag = some t2 ∧
        envVarName t1 = envVarName t2 ∧ allowEmpty t1 = allowEmpty t2 := by
    rcases h.2 with heq | hex
    · cases ht : f.tag with
      | none => exact Or.inl ⟨rfl, by rw [heq, ht]⟩
      | some t => exact Or.inr ⟨t, t, rfl, by rw [heq, ht], rfl, rfl⟩
    · exact Or.inr hex
  rcases hcases with ⟨hf, hg⟩ | ⟨t1, t2, hf, hg, hname, hallow⟩
  · simp only [processField, hf, hg]
    exact ⟨trivial, Or.inr ⟨f, g, rfl, rfl, h⟩⟩
  · simp only [processField, hf, hg, ← hname, ← hallow]
    by_cases hn : envVarName t1 = ""
    · simp only [hn, if_true]
      exact ⟨trivial, Or.inl ⟨_, rfl, rfl⟩⟩
    · by_cases hraw : Getenv env (envVarName t1) = ""
      · cases ha : allowEmpty t1
        · simp only [hn, hraw, if_true, if_false, Bool.false_eq_true]
          exact ⟨trivial, Or.inl ⟨_, rfl, rfl⟩⟩
        · simp only [hn, hraw, if_true, if_false]
          exact ⟨trivial, Or.inr ⟨f, g, rfl, rfl, h⟩⟩
      · simp only [hn, hraw, if_false]
        refine ⟨trivial, ?_⟩
        rcases convert_congr pf (envVarName t1) (Getenv env (envVarName t1)) f g h.1.2.1
          h.1.2.2.1 with ⟨s, h1, h2⟩ | ⟨w, h1, h2⟩
        · exact Or.inl ⟨s, h1, h2⟩
        · exact Or.inr ⟨_, _, h1, h2, h.write w⟩

/-- The scans of two records whose fields are read alike end in the same way
after the same lookups and leave fields that are read alike. -/
theorem scan_readAlike (pf : String → Option F) (env : Env) (fs gs : List (Field F))
    (h : List.Forall₂ ReadAlike fs gs) :
    (scan pf env gs).status = (scan pf env fs).status ∧
    (scan pf env gs).lookups = (scan pf env fs).lookups ∧
    List.Forall₂ ReadAlike (scan pf env fs).fields (scan pf env gs).fields := by
  induction h with
  | nil => exact ⟨rfl, rfl, List.Forall₂.nil⟩
  | @cons f g fs gs hfg htail ih =>
    obtain ⟨hnames, hstep⟩ := processField_readAlike pf env f g hfg
    rcases hstep with ⟨s, hf, hg⟩ | ⟨f2, g2, hf, hg, hrel⟩
    · have hf2 : processField pf env f = (.stop s, (processField pf env f).2) := by rw [← hf]
      have hg2 : processField pf env g = (.stop s, (processField pf env f).2) := by
        rw [← hg, ← hnames]
      rw [scan_cons_stop pf env f fs s _ hf2, scan_cons_stop pf env g gs s _ hg2]
      exact ⟨rfl, rfl, List.Forall₂.cons hfg htail⟩
    · have hf2 : processField pf env f = (.next f2, (processField pf env f).2) := by rw [← hf]
      have hg2 : processField pf env g = (.next g2, (processField pf env f).2) := by
        rw [← hg, ← hnames]
      rw [scan_cons_next pf env f f2 fs _ hf2, scan_cons_next pf env g g2 gs _ hg2]
      exact ⟨ih.1, by rw [ih.2.1], List.Forall₂.cons hrel ih.2.2⟩

/-- A field is read like itself. -/
theorem ReadAlike.refl (f : Field F) : ReadAlike f f :=
  ⟨⟨rfl, rfl, rfl, rfl⟩, Or.inl rfl⟩

/-- The fields of a record are read like themselves. -/
theorem forall₂_readAlike_refl (fs : List (Field F)) : List.Forall₂ ReadAlike fs fs := by
  induction fs with
  | nil => exact List.Forall₂.nil
  | cons f fs ih => exact List.Forall₂.cons (ReadAlike.refl f) ih

/-! ## Options and blanks in annotations -/

/-- The name of an annotation is the trimmed text before its first comma. -/
theorem envVarName_eq (tagValue : String) :
    envVarName tagValue = TrimSpace (beforeFirstComma tagValue) := by
  unfold envVarName
  rw [Split_eq]
  rfl

/-- The `allowEmpty` flag of an annotation without a comma is not set. -/
theorem allowEmpty_of_no_comma (tagValue : String) (h : afterFirstComma tagValue = none) :
    allowEmpty tagValue = false := by
  unfold allowEmpty
  rw [Split_eq, h]
  simp

/-- The `allowEmpty` flag of an annotation with a comma is set when the
trimmed text between the first comma and the next one is `allowempty`. -/
theorem allowEmpty_of_comma (tagValue rest : String) (h : afterFirstComma tagValue = some rest) :
    allowEmpty tagValue = (TrimSpace (beforeFirstComma rest) == "allowempty") := by
  unfold allowEmpty
  rw [Split_eq, h]
  obtain ⟨tl, htl⟩ : ∃ tl, Split rest ',' = beforeFirstComma rest :: tl := ⟨_, Split_eq rest⟩
  simp [htl]

/-- A text without a comma in front of a comma. -/
theorem takeWhile_dropWhile_comma (l r : List Char) (h : ',' ∉ l) :
    (l ++ ',' :: r).takeWhile (fun c => c != ',') = l ∧
    (l ++ ',' :: r).dropWhile (fun c => c != ',') = ',' :: r := by
  induction l with
  | nil => simp
  | cons c cs ih =>
    have hc : c ≠ ',' := fun hc => h (by simp [hc])
    have hcs : ',' ∉ cs := fun hcs => h (List.mem_cons_of_mem c hcs)
    have hne : (c != ',') = true := by simpa using hc
    obtain ⟨h1, h2⟩ := ih hcs
    simp [List.takeWhile, List.dropWhile, hne, h1, h2]

/-- A text without a comma. -/
theorem takeWhile_dropWhile_no_comma (l : List Char) (h : ',' ∉ l) :
    l.takeWhile (fun c => c != ',') = l ∧ l.dropWhile (fun c => c != ',') = [] := by
  induction l with
  | nil => simp
  | cons c cs ih =>
    have hc : c ≠ ',' := fun hc => h (by simp [hc])
    have hcs : ',' ∉ cs := fun hcs => h (List.mem_cons_of_mem c hcs)
    have hne : (c != ',') = true := by simpa using hc
    obtain ⟨h1, h2⟩ := ih hcs
    simp [List.takeWhile, List.dropWhile, hne, h1, h2]

/-- The annotation `name,option` and the annotation `name` give the same
name, and neither sets `allowEmpty` when the option is not `allowempty`. -/
theorem option_ignored (name option : String) (hname : ',' ∉ name.toList)
    (hopt : TrimSpace (beforeFirstComma option) ≠ "allowempty") :
    envVarName (name ++ "," ++ option) = envVarName name ∧
    allowEmpty (name ++ "," ++ option) = false ∧ allowEmpty name = false := by
  have hl : (name ++ "," ++ option).toList = name.toList ++ ',' :: option.toList := by
    simp [String.toList, String.data_append]
  obtain ⟨h1, h2⟩ := takeWhile_dropWhile_comma name.toList option.toList hname
  obtain ⟨h3, h4⟩ := takeWhile_dropWhile_no_comma name.toList hname
  have hb1 : beforeFirstComma (name ++ "," ++ option) = name := by
    unfold beforeFirstComma
    rw [hl, h1]
    rfl
  have ha1 : afterFirstComma (name ++ "," ++ option) = some option := by
    unfold afterFirstComma
    rw [hl, h2]
    rfl
  have hb2 : beforeFirstComma name = name := by
    unfold beforeFirstComma
    rw [h3]
    rfl
  have ha2 : afterFirstComma name = none := by
    unfold afterFirstComma
    rw [h4]
  refine ⟨?_, ?_, allowEmpty_of_no_comma name ha2⟩
  · rw [envVarName_eq, envVarName_eq, hb1, hb2]
  · rw [allowEmpty_of_comma _ option ha1]
    simpa using hopt

/-- Fields that are read alike are the same but for their tags. -/
theorem forall₂_sameButTag (fs gs : List (Field F)) (h : List.Forall₂ ReadAlike fs gs) :
    List.Forall₂ SameButTag fs gs :=
  List.Forall₂.imp (fun _ _ hfg => hfg.1) h

/-- C15: take an annotation `name,option` (`name` without a comma) whose
option segment, the text up to the next comma, is after trimming not
`allowempty`, and replace it on its field by the annotation `name`.  On every
record and in every environment `Unmarshal` ends in the same way for both,
after the same lookups, leaving the same values in the fields; and the
`allowEmpty` flag of `name,option` is not set. -/
theorem unmarshal_other_option (pf : String → Option F) (env : Env)
    (pre post : List (Field F)) (f : Field F) (name option : String)
    (hname : ',' ∉ name.toList)
    (hopt : TrimSpace (beforeFirstComma option) ≠ "allowempty")
    (htag : f.tag = some (name ++ "," ++ option)) :
    (Unmarshal pf env (.ofFields (pre ++ f :: post))).status =
      (Unmarshal pf env (.ofFields (pre ++ { f with tag := some name } :: post))).status ∧
    (Unmarshal pf env (.ofFields (pre ++ f :: post))).lookups =
      (Unmarshal pf env (.ofFields (pre ++ { f with tag := some name } :: post))).lookups ∧
    List.Forall₂ SameButTag
      (Unmarshal pf env (.ofFields (pre ++ { f with tag := some name } :: post))).vessel.fields
      (Unmarshal pf env (.ofFields (pre ++ f :: post))).vessel.fields ∧
    allowEmpty (name ++ "," ++ option) = false := by
  obtain ⟨h1, h2, h3⟩ := option_ignored name option hname hopt
  have hrel : ReadAlike { f with tag := some name } f :=
    ⟨⟨rfl, rfl, rfl, rfl⟩, Or.inr ⟨name, name ++ "," ++ option, rfl, htag, h1.symm,
      by rw [h2, h3]⟩⟩
  have hall : List.Forall₂ ReadAlike (pre ++ { f with tag := some name } :: post)
      (pre ++ f :: post) :=
    List.rel_append (forall₂_readAlike_refl pre)
      (List.Forall₂.cons hrel (forall₂_readAlike_refl post))
  obtain ⟨hs, hl, hfields⟩ := scan_readAlike pf env _ _ hall
  exact ⟨hs, hl, forall₂_sameButTag _ _ hfields, h2⟩

/-- The annotations `FOO,required`, `FOO,AllowEmpty` and `FOO,` with `FOO`
unset, by C15: the error of the annotation `FOO`. -/
theorem unmarshal_other_option_witness :
    (Unmarshal decimalFloat emptyEnv (.ofFields [fooString "FOO,required"])).status =
      (Unmarshal decimalFloat emptyEnv (.ofFields [fooString "FOO"])).status ∧
    (Unmarshal decimalFloat emptyEnv (.ofFields [fooString "FOO,AllowEmpty"])).status =
      (Unmarshal decimalFloat emptyEnv (.ofFields [fooString "FOO"])).status ∧
    (Unmarshal decimalFloat emptyEnv (.ofFields [fooString "FOO,"])).status =
      (Unmarshal decimalFloat emptyEnv (.ofFields [fooString "FOO"])).status ∧
    (Unmarshal decimalFloat emptyEnv (.ofFields [fooString "FOO"])).status =
      .returned (some (.wrapped "environment variable name is FOO"
        .ErrEmptyEnvironmentVariable)) :=
  ⟨(unmarshal_other_option decimalFloat emptyEnv [] [] (fooString "FOO,required") "FOO"
      "required" (by decide) (by decide) (by decide)).1,
    (unmarshal_other_option decimalFloat emptyEnv [] [] (fooString "FOO,AllowEmpty") "FOO"
      "AllowEmpty" (by decide) (by decide) (by decide)).1,
    (unmarshal_other_option decimalFloat emptyEnv [] [] (fooString "FOO,") "FOO"
      "" (by decide) (by decide) (by decide)).1,
    by decide⟩

/-- Annotations with the same trimmed pieces are read alike. -/
theorem readAlike_of_trimmed (t1 t2 : String)
    (h : (Split t1 ',').map TrimSpace = (Split t2 ',').map TrimSpace) :
    envVarName t1 = envVarName t2 ∧ allowEmpty t1 = allowEmpty t2 := by
  have hhead : ∀ l : List String, TrimSpace (l.headD "") = (l.map TrimSpace).headD "" := by
    intro l
    cases l with
    | nil => decide
    | cons a l => rfl
  have hget : ∀ l : List String, 2 ≤ l.length →
      TrimSpace (l.getD 1 "") = (l.map TrimSpace).getD 1 "" := by
    intro l hl
    match l, hl with
    | _ :: _ :: _, _ => rfl
  have hlen : (Split t1 ',').length = (Split t2 ',').length := by
    have := congrArg List.length h
    simpa using this
  refine ⟨?_, ?_⟩
  · unfold envVarName
    rw [hhead, hhead, h]
  · unfold allowEmpty
    by_cases hl : 2 ≤ (Split t1 ',').length
    · have hl2 : 2 ≤ (Split t2 ',').length := hlen ▸ hl
      rw [hget _ hl, hget _ hl2, h]
      simp [hl, hl2]
    · have hl2 : ¬ 2 ≤ (Split t2 ',').length := hlen ▸ hl
      simp [hl, hl2]

/-- Fields whose annotations have the same trimmed pieces are read alike. -/
theorem forall₂_readAlike_of_trimmed (fs gs : List (Field F))
    (h : List.Forall₂ TrimmedAlike fs gs) : List.Forall₂ ReadAlike fs gs := by
  refine List.Forall₂.imp ?_ h
  intro f g hfg
  refine ⟨hfg.1, ?_⟩
  rcases hfg.2 with heq | ⟨t1, t2, h1, h2, h3⟩
  · exact Or.inl heq
  · obtain ⟨h4, h5⟩ := readAlike_of_trimmed t1 t2 h3
    exact Or.inr ⟨t1, t2, h1, h2, h4, h5⟩

/-- A tagged field of Kind `string` that is written holds the fetched string
as it is. -/
theorem processField_string_verbatim (pf : String → Option F) (env : Env) (f g : Field F)
    (tagValue : String) (names : List String) (htag : f.tag = some tagValue)
    (hkind : f.typ.Kind = .string) (hraw : Getenv env (envVarName tagValue) ≠ "")
    (h : processField pf env f = (.next g, names)) :
    g.val = .str (Getenv env (envVarName tagValue)) := by
  rw [processField_convert pf env f tagValue htag hraw] at h
  simp only [convert, hkind, setField, Prod.mk.injEq] at h
  obtain ⟨h1, _⟩ := h
  split at h1
  · simp at h1
    rw [← h1]
  · simp at h1

/-- C17: two records whose fields differ at most in their annotations, the
annotations of a field having the same pieces once the pieces are trimmed,
make `Unmarshal` end in the same way after the same lookups and leave the
same values.  The annotation `" FOO "` names the variable `FOO` and has the
trimmed pieces of `"FOO"`, and `"FOO , allowempty "` has those of
`"FOO,allowempty"`.  The value itself is not trimmed: a `string` field that is
written holds the fetched string as it is. -/
theorem unmarshal_trimmed (pf : String → Option F) (env : Env) (fs gs : List (Field F))
    (h : List.Forall₂ TrimmedAlike fs gs) :
    (Unmarshal pf env (.ofFields gs)).status = (Unmarshal pf env (.ofFields fs)).status ∧
    (Unmarshal pf env (.ofFields gs)).lookups = (Unmarshal pf env (.ofFields fs)).lookups ∧
    List.Forall₂ SameButTag (Unmarshal pf env (.ofFields fs)).vessel.fields
      (Unmarshal pf env (.ofFields gs)).vessel.fields ∧
    envVarName " FOO " = "FOO" ∧
    (Split " FOO " ',').map TrimSpace = (Split "FOO" ',').map TrimSpace ∧
    (Split "FOO , allowempty " ',').map TrimSpace =
      (Split "FOO,allowempty" ',').map TrimSpace ∧
    (∀ (f g : Field F) (tagValue : String) (names : List String),
      f.tag = some tagValue → f.typ = .string → Getenv env (envVarName tagValue) ≠ "" →
      processField pf env f = (.next g, names) →
      g.val = .str (Getenv env (envVarName tagValue))) := by
  obtain ⟨hs, hl, hfields⟩ := scan_readAlike pf env fs gs (forall₂_readAlike_of_trimmed fs gs h)
  refine ⟨hs, hl, forall₂_sameButTag _ _ hfields, by decide, by decide, by decide, ?_⟩
  intro f g tagValue names htag hty hraw hstep
  exact processField_string_verbatim pf env f g tagValue names htag (by rw [hty]; rfl) hraw hstep

/-- The annotations `" FOO "` and `"FOO , allowempty "` against `"FOO"` and
`"FOO,allowempty"`, with `FOO` set to a string with blanks around it, by
C17. -/
theorem unmarshal_trimmed_witness :
    (Unmarshal decimalFloat (fooEnv " x ")
      (.ofFields [fooString " FOO ", fooString "FOO , allowempty "])).status =
      (Unmarshal decimalFloat (fooEnv " x ")
        (.ofFields [fooString "FOO", fooString "FOO,allowempty"])).status ∧
    Unmarshal decimalFloat (fooEnv " x ")
        (.ofFields [fooString " FOO ", fooString "FOO , allowempty "]) =
      ⟨.ok, .ofFields [⟨"Foo", true, some " FOO ", .string, .str " x "⟩,
          ⟨"Foo", true, some "FOO , allowempty ", .string, .str " x "⟩], ["FOO", "FOO"]⟩ :=
  ⟨(unmarshal_trimmed decimalFloat (fooEnv " x ")
      [fooString "FOO", fooString "FOO,allowempty"]
      [fooString " FOO ", fooString "FOO , allowempty "]
      (.cons ⟨⟨rfl, rfl, rfl, rfl⟩, Or.inr ⟨"FOO", " FOO ", rfl, rfl, by decide⟩⟩
        (.cons ⟨⟨rfl, rfl, rfl, rfl⟩,
            Or.inr ⟨"FOO,allowempty", "FOO , allowempty ", rfl, rfl, by decide⟩⟩
          .nil))).1,
    by decide⟩

/-! ## Calling twice -/

/-- A field that a step has gone past is gone past in the same way again,
and stays as it is. -/
theorem processField_idem (pf : String → Option F) (env : Env) (f g : Field F)
    (names : List String) (h : processField pf env f = (.next g, names)) :
    processField pf env g = (.next g, names) := by
  have hfr := processField_next_frame pf env f g names h
  cases ht : f.tag with
  | none =>
    simp only [processField, ht, Prod.mk.injEq, Step.next.injEq] at h
    rw [← h.1, ← h.2]
    simp [processField, ht]
  | some tagValue =>
    by_cases hraw : Getenv env (envVarName tagValue) = ""
    · by_cases hname : envVarName tagValue = ""
      · simp [processField, ht, hname] at h
      · cases ha : allowEmpty tagValue
        · simp [processField, ht, hname, hraw, ha] at h
        · simp only [processField, ht, hname, hraw, ha, if_true, if_false, Prod.mk.injEq,
            Step.next.injEq] at h
          rw [← h.1, ← h.2]
          simp [processField, ht, hname, hraw, ha]
    · have hgt : g.tag = some tagValue := by rw [hfr]; exact ht
      rw [processField_convert pf env f tagValue ht hraw] at h
      simp only [Prod.mk.injEq] at h
      rw [processField_convert pf env g tagValue hgt hraw, ← h.2]
      have he : g.exported = f.exported := by rw [hfr]
      have hty : g.typ = f.typ := by rw [hfr]
      rcases convert_congr pf (envVarName tagValue) (Getenv env (envVarName tagValue)) f g he hty
        with ⟨s, h1, _⟩ | ⟨w, h1, h2⟩
      · rw [h.1] at h1
        simp at h1
      · rw [h.1] at h1
        simp only [Step.next.injEq] at h1
        have hw : g.val = w := by rw [h1]
        rw [h2, ← hw]

/-- Scanning the fields a scan has left ends in the same way and leaves them
as they are. -/
theorem scan_idem (pf : String → Option F) (env : Env) (fs : List (Field F)) :
    scan pf env (scan pf env fs).fields = scan pf env fs := by
  induction fs with
  | nil => rfl
  | cons f rest ih =>
    rcases hp : processField pf env f with ⟨step, names⟩
    cases step with
    | next g =>
      rw [scan_cons_next pf env f g rest names hp]
      simp only
      rw [scan_cons_next pf env g g _ names (processField_idem pf env f g names hp), ih]
    | stop s =>
      rw [scan_cons_stop pf env f rest s names hp]
      exact scan_cons_stop pf env f rest s names hp

/-- C18: calling `Unmarshal` again on what a call has left, in the same
environment, ends in the same way (the same nil error, or the same error at
the same field), after the same lookups, and leaves the argument as the first
call left it. -/
theorem unmarshal_idempotent (pf : String → Option F) (env : Env) (vessel : Vessel F) :
    Unmarshal pf env (Unmarshal pf env vessel).vessel = Unmarshal pf env vessel := by
  match vessel with
  | .nil => rfl
  | .nonPointer _ _ => rfl
  | .pointer none => rfl
  | .pointer (some (.nonStruct _)) => rfl
  | .pointer (some (.struct fields)) =>
    simp only [Unmarshal]
    rw [scan_idem]

/-! ## The environment -/

/-- The step of a field reads the environment at the name of its tag only. -/
theorem processField_env (pf : String → Option F) (env1 env2 : Env) (f : Field F)
    (h : ∀ tagValue, f.tag = some tagValue →
      Getenv env1 (envVarName tagValue) = Getenv env2 (envVarName tagValue)) :
    processField pf env1 f = processField pf env2 f := by
  cases ht : f.tag with
  | none => simp [processField, ht]
  | some tagValue => simp [processField, ht, h tagValue ht]

/-- The scan reads the environment at the names of the tags only. -/
theorem scan_env (pf : String → Option F) (env1 env2 : Env) (fs : List (Field F))
    (h : ∀ f ∈ fs, ∀ tagValue, f.tag = some tagValue →
      Getenv env1 (envVarName tagValue) = Getenv env2 (envVarName tagValue)) :
    scan pf env1 fs = scan pf env2 fs := by
  induction fs with
  | nil => rfl
  | cons f rest ih =>
    have hf := processField_env pf env1 env2 f (h f (List.mem_cons_self f rest))
    have hrest := ih (fun g hg => h g (List.mem_cons_of_mem f hg))
    simp only [scan, hf, hrest]

/-- C19: two environments that give the same value to every name of an
`envs` annotation of the record make `Unmarshal` end in the same way, after
the same lookups, with the same final record.  The environment is an
argument that `Unmarshal` reads through `os.Getenv` only: there is nothing
it could change it with. -/
theorem unmarshal_env_agree (pf : String → Option F) (env1 env2 : Env) (vessel : Vessel F)
    (h : ∀ f ∈ vessel.fields, ∀ tagValue, f.tag = some tagValue →
      env1 (envVarName tagValue) = env2 (envVarName tagValue)) :
    Unmarshal pf env1 vessel = Unmarshal pf env2 vessel := by
  match vessel, h with
  | .nil, _ => rfl
  | .nonPointer _ _, _ => rfl
  | .pointer none, _ => rfl
  | .pointer (some (.nonStruct _)), _ => rfl
  | .pointer (some (.struct fields)), h =>
    have hs : scan pf env1 fields = scan pf env2 fields := by
      apply scan_env
      intro f hf tagValue ht
      simp only [Getenv, h f hf tagValue ht]
    simp only [Unmarshal, hs]

/-- The struct of `TestUnmarshal` in the environment of the tests and in that
environment with `HOME` set too, by C19. -/
theorem unmarshal_env_agree_witness :
    Unmarshal decimalFloat testEnvWithHome (.ofFields structuredEnv) =
      Unmarshal decimalFloat testEnv (.ofFields structuredEnv) :=
  unmarshal_env_agree decimalFloat testEnvWithHome testEnv (.ofFields structuredEnv) (by
    intro f hf tagValue ht
    simp only [Vessel.fields, structuredEnv, List.mem_cons, List.mem_singleton,
      List.not_mem_nil, or_false] at hf
    rcases hf with rfl | rfl | rfl | rfl | rfl | rfl <;> simp at ht <;> subst ht <;> decide)

/-! ## The first error -/

/-- A scan that ends well has gone past every field. -/
theorem scan_ok_steps (pf : String → Option F) (env : Env) (fs : List (Field F))
    (h : (scan pf env fs).status = .ok) :
    List.Forall₂ (fun g g2 => ∃ names, processField pf env g = (.next g2, names))
      fs (scan pf env fs).fields := by
  induction fs with
  | nil => exact List.Forall₂.nil
  | cons f rest ih =>
    rcases hp : processField pf env f with ⟨step, names⟩
    cases step with
    | next g =>
      rw [scan_cons_next pf env f g rest names hp] at h ⊢
      exact List.Forall₂.cons ⟨names, hp⟩ (ih h)
    | stop s =>
      rw [scan_cons_stop pf env f rest s names hp] at h
      have hne := processField_ne_stop_ok pf env f
      rw [hp] at hne
      simp only at h
      exact absurd (congrArg Step.stop h) hne

/-- A scan that does not end well has stopped at a field, the scan of the
fields before it having ended well. -/
theorem scan_stopped_split (pf : String → Option F) (env : Env) (fs : List (Field F))
    (h : (scan pf env fs).status ≠ .ok) :
    ∃ pre f post names, fs = pre ++ f :: post ∧ (scan pf env pre).status = .ok ∧
      processField pf env f = (.stop (scan pf env fs).status, names) := by
  induction fs with
  | nil => exact absurd rfl h
  | cons f rest ih =>
    rcases hp : processField pf env f with ⟨step, names⟩
    cases step with
    | next g =>
      rw [scan_cons_next pf env f g rest names hp] at h ⊢
      obtain ⟨pre, f2, post, names2, hsplit, hpre, hstop⟩ := ih h
      refine ⟨f :: pre, f2, post, names2, by rw [hsplit]; rfl, ?_, hstop⟩
      rw [scan_cons_next pf env f g pre names hp]
      exact hpre
    | stop s =>
      rw [scan_cons_stop pf env f rest s names hp]
      exact ⟨[], f, rest, names, rfl, rfl, hp⟩

/-- A tagged field that a step has written, its variable not being empty,
holds the value converted from the variable. -/
theorem processField_converted (pf : String → Option F) (env : Env) (f g : Field F)
    (tagValue : String) (names : List String) (htag : f.tag = some tagValue)
    (hraw : Getenv env (envVarName tagValue) ≠ "")
    (h : processField pf env f = (.next g, names)) :
    convertedValue pf f.typ (Getenv env (envVarName tagValue)) = some g.val := by
  have hs : ∀ v : Val F, setField f v = .next g → g.val = v := by
    intro v hv
    unfold setField at hv
    split at hv
    · simp at hv; rw [← hv]
    · simp at hv
  have hp : ∀ (e t : Typ) (v : Val F), setPointer f e t v = .next g → g.val = .ptrTo v := by
    intro e t v hv
    unfold setPointer at hv
    split at hv
    · split at hv
      · simp at hv; rw [← hv]
      · simp at hv
    · simp at hv
  rw [processField_convert pf env f tagValue htag hraw] at h
  simp only [Prod.mk.injEq] at h
  have hc := h.1
  unfold convert at hc
  cases hty : f.typ with
  | string =>
    have h1 : f.typ.Kind = .string := by rw [hty]; rfl
    simp only [h1] at hc
    simp [convertedValue, kindValue, Typ.Kind, hs _ hc]
  | bool =>
    have h1 : f.typ.Kind = .bool := by rw [hty]; rfl
    simp only [h1] at hc
    simp [convertedValue, kindValue, Typ.Kind, hs _ hc]
  | int64 =>
    have h1 : f.typ.Kind = .int64 := by rw [hty]; rfl
    simp only [h1] at hc
    cases hpi : ParseInt (Getenv env (envVarName tagValue)) with
    | none => simp [hpi] at hc
    | some n => simp only [hpi] at hc; simp [convertedValue, kindValue, Typ.Kind, hpi, hs _ hc]
  | float64 =>
    have h1 : f.typ.Kind = .float64 := by rw [hty]; rfl
    simp only [h1] at hc
    cases hpx : pf (Getenv env (envVarName tagValue)) with
    | none => simp [hpx] at hc
    | some x => simp only [hpx] at hc; simp [convertedValue, kindValue, Typ.Kind, hpx, hs _ hc]
  | ptr elem =>
    have h1 : f.typ.Kind = .ptr := by rw [hty]; rfl
    have h2 : f.typ.Elem = some elem := by rw [hty]; rfl
    simp only [h1, h2] at hc
    simp only [convertedValue]
    cases hpi : ParseInt (Getenv env (envVarName tagValue)) <;>
      cases hpx : pf (Getenv env (envVarName tagValue)) <;>
      cases hk : elem.Kind <;> simp only [hk, hpi, hpx] at hc <;>
      first
        | (simp [unsupportedError, parseError] at hc)
        | (simp [kindValue, hpi, hpx, hp _ _ _ hc])
  | other name k =>
    have h1 : f.typ.Kind = k := by rw [hty]; rfl
    have h2 : f.typ.Elem = none := by rw [hty]; rfl
    simp only [h1, h2] at hc
    simp only [convertedValue, Typ.Kind]
    cases hpi : ParseInt (Getenv env (envVarName tagValue)) <;>
      cases hpx : pf (Getenv env (envVarName tagValue)) <;>
      cases k <;> simp only [hpi, hpx] at hc <;>
      first
        | (simp [unsupportedError, parseError] at hc)
        | (simp [kindValue, hpi, hpx, hs _ hc])

/-- C16: when `Unmarshal` returns an error on a record, the record splits
into the fields `pre`, a field `f` and the fields `post`, such that the step
of every field of `pre` went on, the step of `f` stopped with that very error,
every field of `pre` with a tag and a non-empty variable holds the value
converted from the variable, and `f` and the fields of `post` are as they
were. -/
theorem unmarshal_first_error (pf : String → Option F) (env : Env) (fs : List (Field F))
    (e : Error) (h : (Unmarshal pf env (.ofFields fs)).status = .returned (some e)) :
    ∃ pre f post names, fs = pre ++ f :: post ∧
      processField pf env f = (.stop (.returned (some e)), names) ∧
      List.Forall₂
        (fun g g2 => (∃ ns, processField pf env g = (.next g2, ns)) ∧
          ∀ tagValue, g.tag = some tagValue → Getenv env (envVarName tagValue) ≠ "" →
            convertedValue pf g.typ (Getenv env (envVarName tagValue)) = some g2.val)
        pre (scan pf env pre).fields ∧
      (Unmarshal pf env (.ofFields fs)).vessel =
        .ofFields ((scan pf env pre).fields ++ f :: post) ∧
      (Unmarshal pf env (.ofFields fs)).lookups = (scan pf env pre).lookups ++ names := by
  have hs : (scan pf env fs).status = .returned (some e) := h
  have hne : (scan pf env fs).status ≠ .ok := by rw [hs]; simp
  obtain ⟨pre, f, post, names, hsplit, hpre, hstop⟩ := scan_stopped_split pf env fs hne
  rw [hs] at hstop
  refine ⟨pre, f, post, names, hsplit, hstop, ?_, ?_, ?_⟩
  · refine List.Forall₂.imp ?_ (scan_ok_steps pf env pre hpre)
    intro g g2 hg
    obtain ⟨ns, hns⟩ := hg
    exact ⟨⟨ns, hns⟩, fun tagValue ht hraw =>
      processField_converted pf env g g2 tagValue ns ht hraw hns⟩
  · subst hsplit
    simp [Unmarshal, Vessel.ofFields, scan_stop_at pf env pre post f _ _ hpre hstop]
  · subst hsplit
    simp [Unmarshal, Vessel.ofFields, scan_stop_at pf env pre post f _ _ hpre hstop]

/-- A record whose second field fails, `BAR` being unset, after the first
field has been written and before a third field, by C16. -/
theorem unmarshal_first_error_witness :
    (∃ pre f post names,
      [quxField .bool (.bool false), barField .int64 (.int 7), quxField (.ptr .bool) .nilPtr] =
        pre ++ f :: post ∧
      processField decimalFloat (quxEnv "TRUE") f =
        (.stop (.returned (some (.wrapped "environment variable name is BAR"
          .ErrEmptyEnvironmentVariable))), names) ∧
      List.Forall₂
        (fun g g2 => (∃ ns, processField decimalFloat (quxEnv "TRUE") g = (.next g2, ns)) ∧
          ∀ tagValue, g.tag = some tagValue →
            Getenv (quxEnv "TRUE") (envVarName tagValue) ≠ "" →
            convertedValue decimalFloat g.typ (Getenv (quxEnv "TRUE") (envVarName tagValue)) =
              some g2.val)
        pre (scan decimalFloat (quxEnv "TRUE") pre).fields ∧
      (Unmarshal decimalFloat (quxEnv "TRUE") (.ofFields
        [quxField .bool (.bool false), barField .int64 (.int 7),
          quxField (.ptr .bool) .nilPtr])).vessel =
        .ofFields ((scan decimalFloat (quxEnv "TRUE") pre).fields ++ f :: post) ∧
      (Unmarshal decimalFloat (quxEnv "TRUE") (.ofFields
        [quxField .bool (.bool false), barField .int64 (.int 7),
          quxField (.ptr .bool) .nilPtr])).lookups =
        (scan decimalFloat (quxEnv "TRUE") pre).lookups ++ names) ∧
    Unmarshal decimalFloat (quxEnv "TRUE") (.ofFields
        [quxField .bool (.bool false), barField .int64 (.int 7),
          quxField (.ptr .bool) .nilPtr]) =
      ⟨.returned (some (.wrapped "environment variable name is BAR"
          .ErrEmptyEnvironmentVariable)),
        .ofFields [quxField .bool (.bool true), barField .int64 (.int 7),
          quxField (.ptr .bool) .nilPtr],
        ["QUX", "BAR"]⟩ :=
  ⟨unmarshal_first_error decimalFloat (quxEnv "TRUE")
      [quxField .bool (.bool false), barField .int64 (.int 7), quxField (.ptr .bool) .nilPtr]
      (.wrapped "environment variable name is BAR" .ErrEmptyEnvironmentVariable) (by decide),
    by decide⟩

/-! ## The order of the checks -/

/-- C20: take a tagged field of any type, so also of an unsupported one,
whose variable is unset or set to the empty string.  Its step never stops
with the error of an unsupported type.  When the name of the tag is empty the
step stops with `ErrEnvironmentVariableNameIsEmpty`.  Otherwise, with
`allowempty` the field is passed over: it stays as it is and `Unmarshal` ends
as it does on the record without that field; and without `allowempty` the step
stops with an error that wraps `ErrEmptyEnvironmentVariable`, which is what
`Unmarshal` returns when the scan reaches the field.  Only with a name and a
variable that are not empty does the step look at the type: it is the
conversion then. -/
theorem unmarshal_empty_before_type (pf : String → Option F) (env : Env)
    (pre post : List (Field F)) (f : Field F) (tagValue : String)
    (htag : f.tag = some tagValue)
    (henv : env (envVarName tagValue) = none ∨ env (envVarName tagValue) = some "") :
    (∀ (k : Kind) (names : List String),
      processField pf env f ≠ (.stop (unsupportedError k), names)) ∧
    (envVarName tagValue = "" →
      processField pf env f =
        (.stop (.returned (some (.sentinel .ErrEnvironmentVariableNameIsEmpty))), [])) ∧
    (envVarName tagValue ≠ "" → allowEmpty tagValue = true →
      processField pf env f = (.next f, [envVarName tagValue]) ∧
      (Unmarshal pf env (.ofFields (pre ++ f :: post))).vessel.fields[pre.length]? = some f ∧
      (Unmarshal pf env (.ofFields (pre ++ f :: post))).status =
        (Unmarshal pf env (.ofFields (pre ++ post))).status) ∧
    (envVarName tagValue ≠ "" → allowEmpty tagValue = false →
      processField pf env f =
        (.stop (.returned (some (.wrapped ("environment variable name is " ++ envVarName tagValue)
          .ErrEmptyEnvironmentVariable))), [envVarName tagValue]) ∧
      ((scan pf env pre).status = .ok →
        (Unmarshal pf env (.ofFields (pre ++ f :: post))).status =
          .returned (some (.wrapped ("environment variable name is " ++ envVarName tagValue)
            .ErrEmptyEnvironmentVariable)))) ∧
    (∀ env2 : Env, Getenv env2 (envVarName tagValue) ≠ "" →
      processField pf env2 f =
        (convert pf (envVarName tagValue) (Getenv env2 (envVarName tagValue)) f,
          [envVarName tagValue])) := by
  have hget : Getenv env (envVarName tagValue) = "" := by
    rcases henv with h | h <;> simp [Getenv, h]
  refine ⟨?_, ?_, ?_, ?_, ?_⟩
  · intro k names
    by_cases hname : envVarName tagValue = ""
    · simp [processField, htag, hname, unsupportedError]
    · cases ha : allowEmpty tagValue <;>
        simp [processField, htag, hname, hget, ha, unsupportedError]
  · intro hname
    simp [processField, htag, hname]
  · intro hname ha
    have hf : processField pf env f = (.next f, [envVarName tagValue]) := by
      simp [processField, htag, hname, hget, ha]
    have h := scan_skip_at pf env pre post f _ hf
    exact ⟨hf, h.2, h.1⟩
  · intro hname ha
    have hf : processField pf env f =
        (.stop (.returned (some (.wrapped ("environment variable name is " ++ envVarName tagValue)
          .ErrEmptyEnvironmentVariable))), [envVarName tagValue]) := by
      simp [processField, htag, hname, hget, ha]
    refine ⟨hf, ?_⟩
    intro hpre
    simp [Unmarshal, Vessel.ofFields, scan_stop_at pf env pre post f _ _ hpre hf]
  · intro env2 hraw
    exact processField_convert pf env2 f tagValue htag hraw

/-- Fields of the unsupported type `time.Time` with `FOO` unset: with
`allowempty` and without, by C20. -/
theorem unmarshal_empty_before_type_witness :
    (Unmarshal decimalFloat emptyEnv
      (.ofFields [⟨"At", true, some "FOO,allowempty", timeTime, .other "zero"⟩])).status = .ok ∧
    (Unmarshal decimalFloat emptyEnv (.ofFields [atField timeTime (.other "zero")])).status =
      .returned (some (.wrapped "environment variable name is FOO"
        .ErrEmptyEnvironmentVariable)) :=
  ⟨((unmarshal_empty_before_type decimalFloat emptyEnv [] []
      ⟨"At", true, some "FOO,allowempty", timeTime, .other "zero"⟩ "FOO,allowempty" rfl
      (Or.inl rfl)).2.2.1 (by decide) (by decide)).2.2,
    ((unmarshal_empty_before_type decimalFloat emptyEnv [] [] (atField timeTime (.other "zero"))
      "FOO" rfl (Or.inl rfl)).2.2.2.1 (by decide) (by decide)).2 rfl⟩

end Proofs

end Envs
